import Mathlib

/-!
Verification development for the aerospacetoolbox repository
(`aerospacetoolbox.py`: `flowisentropic`, `flownormalshock`, `atmosisa`).

The source operates on numpy float64 arrays.  We embed the code over the
real numbers, flattening arrays to `List ℝ` (a scalar input is the
length-one list produced by `ndmin=1`).  The code deliberately produces
IEEE special values (`M = sp.inf` sentinels, `inf`/`nan` propagation in
the normal-shock formulas, `-inf` geopotential altitudes), so computed
values live in the type `EF` below: a real number, one of the two
infinities, or `nan`, with the arithmetic rules of IEEE-754 / numpy for
those special values.  All decimal literals of the source are exact
rationals here.  Validation failures (`raise Exception(msg)`) are
embedded as `Except.error msg`.
-/

noncomputable section

open scoped Classical

/-- A float64 value as the source manipulates it: a (finite) real,
`+inf`, `-inf`, or `nan`. -/
inductive EF where
  | nan : EF
  | pinf : EF
  | ninf : EF
  | fin : ℝ → EF
  deriving DecidableEq

namespace EF

/-- IEEE addition. -/
def add : EF → EF → EF
  | nan, _ => nan
  | _, nan => nan
  | pinf, ninf => nan
  | ninf, pinf => nan
  | pinf, _ => pinf
  | _, pinf => pinf
  | ninf, _ => ninf
  | _, ninf => ninf
  | fin x, fin y => fin (x + y)

/-- IEEE negation. -/
def neg : EF → EF
  | nan => nan
  | pinf => ninf
  | ninf => pinf
  | fin x => fin (-x)

/-- IEEE subtraction. -/
def sub (a b : EF) : EF := add a (neg b)

/-- IEEE multiplication (`inf * 0 = nan`). -/
def mul : EF → EF → EF
  | nan, _ => nan
  | _, nan => nan
  | pinf, pinf => pinf
  | pinf, ninf => ninf
  | ninf, pinf => ninf
  | ninf, ninf => pinf
  | pinf, fin x => if 0 < x then pinf else if x < 0 then ninf else nan
  | fin x, pinf => if 0 < x then pinf else if x < 0 then ninf else nan
  | ninf, fin x => if 0 < x then ninf else if x < 0 then pinf else nan
  | fin x, ninf => if 0 < x then ninf else if x < 0 then pinf else nan
  | fin x, fin y => fin (x * y)

/-- IEEE division.  Zeros are unsigned in this model, so `x / 0` takes the
sign of `x` (`0 / 0 = nan`) and `inf / 0 = +inf`, matching numpy on the
`+0.0` values that actually arise in the embedded code. -/
def div : EF → EF → EF
  | nan, _ => nan
  | _, nan => nan
  | pinf, pinf => nan
  | pinf, ninf => nan
  | ninf, pinf => nan
  | ninf, ninf => nan
  | pinf, fin y => if 0 ≤ y then pinf else ninf
  | ninf, fin y => if 0 ≤ y then ninf else pinf
  | fin _, pinf => fin 0
  | fin _, ninf => fin 0
  | fin x, fin y =>
      if y = 0 then (if 0 < x then pinf else if x < 0 then ninf else nan)
      else fin (x / y)

/-- IEEE square (`x ** 2` with a python integer exponent). -/
def sq (a : EF) : EF := mul a a

/-- IEEE square root (`sp.sqrt`): `nan` on negative finite inputs and on
`-inf`. -/
def sqrt : EF → EF
  | nan => nan
  | pinf => pinf
  | ninf => nan
  | fin x => if x < 0 then nan else fin (Real.sqrt x)

/-- IEEE exponential (`sp.exp`). -/
def exp : EF → EF
  | nan => nan
  | pinf => pinf
  | ninf => fin 0
  | fin x => fin (Real.exp x)

/-- IEEE power `x ** e` with a float64 exponent `e` (numpy `power`):
`x ** 0 = 1` for every `x` (including `nan`), `nan` otherwise propagates;
a negative finite base with a non-integral exponent gives `nan`; on the
remaining finite cases this agrees with `Real.rpow`. -/
def rpow : EF → ℝ → EF
  | nan, e => if e = 0 then fin 1 else nan
  | pinf, e => if e = 0 then fin 1 else if 0 < e then pinf else fin 0
  | ninf, e =>
      if e = 0 then fin 1
      else if (∃ n : ℤ, Odd n ∧ (n : ℝ) = e) then (if 0 < e then ninf else fin 0)
      else (if 0 < e then pinf else fin 0)
  | fin x, e =>
      if x = 0 then (if e = 0 then fin 1 else if 0 < e then fin 0 else pinf)
      else if x < 0 ∧ ¬(∃ n : ℤ, (n : ℝ) = e) then nan
      else fin (x ^ e)

/-- Strict IEEE comparison `a < b` (`nan` compares false with
everything). -/
def lt : EF → EF → Prop
  | nan, _ => False
  | _, nan => False
  | ninf, ninf => False
  | ninf, _ => True
  | _, ninf => False
  | pinf, _ => False
  | fin _, pinf => True
  | fin x, fin y => x < y

@[simp] theorem add_fin (x y : ℝ) : add (fin x) (fin y) = fin (x + y) := rfl

@[simp] theorem add_fin_pinf (x : ℝ) : add (fin x) pinf = pinf := rfl

@[simp] theorem add_pinf_fin (x : ℝ) : add pinf (fin x) = pinf := rfl

@[simp] theorem add_fin_ninf (x : ℝ) : add (fin x) ninf = ninf := rfl

@[simp] theorem add_ninf_fin (x : ℝ) : add ninf (fin x) = ninf := rfl

@[simp] theorem add_fin_nan (x : ℝ) : add (fin x) nan = nan := rfl

@[simp] theorem add_nan (a : EF) : add nan a = nan := by cases a <;> rfl

@[simp] theorem neg_fin (x : ℝ) : neg (fin x) = fin (-x) := rfl

@[simp] theorem sub_fin (x y : ℝ) : sub (fin x) (fin y) = fin (x - y) := by
  simp [sub, add, neg, sub_eq_add_neg]

@[simp] theorem sub_pinf_fin (x : ℝ) : sub pinf (fin x) = pinf := rfl

@[simp] theorem sub_fin_pinf (x : ℝ) : sub (fin x) pinf = ninf := rfl

@[simp] theorem sub_ninf_fin (x : ℝ) : sub ninf (fin x) = ninf := rfl

@[simp] theorem mul_fin (x y : ℝ) : mul (fin x) (fin y) = fin (x * y) := rfl

@[simp] theorem mul_nan (a : EF) : mul nan a = nan := by cases a <;> rfl

theorem mul_fin_pinf_pos {x : ℝ} (hx : 0 < x) : mul (fin x) pinf = pinf := by
  simp [mul, hx]

theorem mul_fin_pinf_neg {x : ℝ} (hx : x < 0) : mul (fin x) pinf = ninf := by
  simp [mul, hx, not_lt.mpr hx.le, asymm hx]

theorem mul_pinf_fin_pos {x : ℝ} (hx : 0 < x) : mul pinf (fin x) = pinf := by
  simp [mul, hx]

theorem mul_fin_nan (x : ℝ) : mul (fin x) nan = nan := rfl

theorem mul_pinf_nan : mul pinf nan = nan := rfl

@[simp] theorem sq_fin (x : ℝ) : sq (fin x) = fin (x * x) := rfl

@[simp] theorem sq_pinf : sq pinf = pinf := rfl

@[simp] theorem sq_nan : sq nan = nan := rfl

theorem div_fin_fin {x y : ℝ} (hy : y ≠ 0) : div (fin x) (fin y) = fin (x / y) := by
  simp [div, hy]

theorem div_fin_zero_pos {x : ℝ} (hx : 0 < x) : div (fin x) (fin 0) = pinf := by
  simp [div, hx]

@[simp] theorem div_pinf_pinf : div pinf pinf = nan := rfl

@[simp] theorem div_nan (a : EF) : div nan a = nan := by cases a <;> rfl

@[simp] theorem div_fin_nan (x : ℝ) : div (fin x) nan = nan := rfl

@[simp] theorem div_pinf_nan : div pinf nan = nan := rfl

theorem div_pinf_fin {y : ℝ} (hy : 0 ≤ y) : div pinf (fin y) = pinf := by
  simp [div, hy]

@[simp] theorem sqrt_nan : sqrt nan = nan := rfl

@[simp] theorem sqrt_pinf : sqrt pinf = pinf := rfl

theorem sqrt_fin {x : ℝ} (hx : 0 ≤ x) : sqrt (fin x) = fin (Real.sqrt x) := by
  simp [sqrt, not_lt.mpr hx]

@[simp] theorem exp_fin (x : ℝ) : exp (fin x) = fin (Real.exp x) := rfl

theorem rpow_fin_pos {x : ℝ} (hx : 0 < x) (e : ℝ) : rpow (fin x) e = fin (x ^ e) := by
  simp [rpow, hx.ne', not_lt.mpr hx.le]

theorem rpow_pinf_pos {e : ℝ} (he : 0 < e) : rpow pinf e = pinf := by
  simp [rpow, he, he.ne']

theorem rpow_pinf_neg {e : ℝ} (he : e < 0) : rpow pinf e = fin 0 := by
  simp [rpow, he.ne, asymm he]

theorem rpow_nan {e : ℝ} (he : e ≠ 0) : rpow nan e = nan := by
  simp [rpow, he]

@[simp] theorem lt_fin_fin (x y : ℝ) : lt (fin x) (fin y) ↔ x < y := Iff.rfl

@[simp] theorem lt_ninf_fin (x : ℝ) : lt ninf (fin x) := trivial

@[simp] theorem lt_ninf_ninf : ¬ lt ninf ninf := not_false

@[simp] theorem lt_fin_ninf (x : ℝ) : ¬ lt (fin x) ninf := not_false

@[simp] theorem lt_nan (a : EF) : ¬ lt nan a := by cases a <;> exact not_false

@[simp] theorem fin_inj {x y : ℝ} : fin x = fin y ↔ x = y := by
  constructor
  · intro h; injection h
  · intro h; rw [h]

@[simp] theorem fin_ne_pinf (x : ℝ) : fin x ≠ pinf := by intro h; cases h

@[simp] theorem fin_ne_ninf (x : ℝ) : fin x ≠ ninf := by intro h; cases h

@[simp] theorem ninf_ne_fin (x : ℝ) : ninf ≠ fin x := by intro h; cases h

@[simp] theorem pinf_ne_nan : pinf ≠ nan := by intro h; cases h

@[simp] theorem nan_ne_pinf : nan ≠ pinf := by intro h; cases h

@[simp] theorem pinf_ne_ninf : pinf ≠ ninf := by intro h; cases h

@[simp] theorem ninf_ne_pinf : ninf ≠ pinf := by intro h; cases h

@[simp] theorem pinf_ne_fin (x : ℝ) : pinf ≠ fin x := by intro h; cases h

@[simp] theorem fin_ne_nan (x : ℝ) : fin x ≠ nan := by intro h; cases h

@[simp] theorem nan_ne_fin (x : ℝ) : nan ≠ fin x := by intro h; cases h

end EF

/-- Message of the gamma validation (`gamma <= 1` or non-real) shared by
`flowisentropic` and `flownormalshock`.  The source raises a single
exception type; the distinct validation failures are distinguished by
the raised message, realising the error taxonomy of the spec. -/
def msgGamma : String := "Specific heat ratio inputs must be real numbers greater than 1."

/-- Message of the shape-mismatch validation. -/
def msgShape : String := "Inputs must be same shape or at least one input must be scalar."

/-- Message of the isentropic Mach-mode domain validation. -/
def msgMach : String := "Mach number inputs must be real numbers greater than 0."

/-- Message of the temperature-mode domain validation. -/
def msgTemp : String := "Temperature ratio inputs must be real numbers 0 <= T <= 1."

/-- Message of the pressure-mode domain validation. -/
def msgPres : String := "Pressure ratio inputs must be real numbers 0 <= P <= 1."

/-- Message of the density-mode domain validation. -/
def msgDens : String := "Density ratio inputs must be real numbers 0 <= rho <= 1."

/-- Message of the area-mode domain validation. -/
def msgArea : String := "Area ratio inputs must be real numbers greater than or equal to 1."

/-- Message of the unrecognized-mode validation (same string in all three
functions). -/
def msgMode : String := "Third input must be an acceptable string to select second input parameter."

/-- Message of the shock Mach-mode domain validation. -/
def msgShockMach : String := "Mach number inputs must be real numbers greater than 1."

/-- Message of the shock downstream-Mach-mode domain validation. -/
def msgShockDown : String := "Mach number downstream inputs must be real numbers SQRT((GAMMA-1)/(2*GAMMA)) <= M <= 1."

/-- Message of the shock pressure-mode domain validation. -/
def msgShockPres : String := "Pressure ratio inputs must be real numbers greater than or equal to 1."

/-- Message of the shock density-mode domain validation. -/
def msgShockDens : String := "Density ratio inputs must be real numbers 1 <= M <= (GAMMA+1)/(GAMMA-1)."

/-- `_AETB_iternum = 10`: the process-wide Newton iteration count. -/
def AETBiternum : ℕ := 10

/-- One Newton-Raphson step of the mach-area solve in `flowisentropic`
(the body of the `for i in xrange(_AETB_iternum)` loop): `K = M**2`,
`f = -flow + a**(-c) * (1+b*K)**c / M`, `g` its analytic derivative,
`M <- M - f/g`.  The iterates start from a finite guess and stay finite
reals; real exponentiation `x ^ e` is `Real.rpow`. -/
def newtonStep (gam fl M : ℝ) : ℝ :=
  let a := (gam + 1) / 2
  let b := (gam - 1) / 2
  let c := a / (gam - 1)
  let K := M ^ 2
  let f := -fl + a ^ (-c) * ((1 + b * K) ^ c) / M
  let g := a ^ (-c) * ((1 + b * K) ^ (c - 1)) * (b * (2 * c - 1) * K - 1) / K
  M - f / g

/-- The Newton-Raphson loop of `flowisentropic`, iterated `n` times with
no early exit and no divergence detection. -/
def newtonIter (gam fl : ℝ) : ℕ → ℝ → ℝ
  | 0, M => M
  | n + 1, M => newtonIter gam fl n (newtonStep gam fl M)

/-- The forward isentropic relations of `flowisentropic` at one resolved
Mach value: `d = 1 + b*M**2`, `T = d**(-1)`, `P = d**(-gamma/(gamma-1))`,
`rho = d**(-1/(gamma-1))`, and the mach-area relation with its
`isinf(M)` / `M == 0` limiting values.  Returns `(T, P, rho, area)`. -/
def isenFwd (gam : ℝ) (M : EF) : EF × EF × EF × EF :=
  let a := (gam + 1) / 2
  let b := (gam - 1) / 2
  let c := a / (gam - 1)
  let d := EF.add (EF.fin 1) (EF.mul (EF.fin b) (EF.sq M))
  let T := EF.rpow d (-1)
  let P := EF.rpow d (-gam / (gam - 1))
  let rho := EF.rpow d (-1 / (gam - 1))
  let area :=
    if M = EF.pinf ∨ M = EF.ninf then EF.fin 0
    else if M = EF.fin 0 then EF.pinf
    else EF.div (EF.mul (EF.fin (a ^ (-c))) (EF.rpow d c)) M
  (T, P, rho, area)

/-- The returned tuple `(M, T, P, rho, area)` of `flowisentropic`,
elementwise over the broadcast shape. -/
structure IsenOut where
  M : List EF
  T : List EF
  P : List EF
  rho : List EF
  area : List EF

/-- Broadcasting of `flowisentropic`/`flownormalshock`: a length-one
(scalar) input is replicated to the common shape `n`. -/
def broadcast (n : ℕ) (xs : List ℝ) : List ℝ :=
  if xs.length = 1 then List.replicate n xs.headI else xs

/-- Assemble the `flowisentropic` return value from the resolved Mach
list by evaluating the forward relations elementwise. -/
def isenOut (gam : List ℝ) (M : List EF) : IsenOut :=
  let fw := List.zipWith isenFwd gam M
  ⟨M, fw.map (fun t => t.1), fw.map (fun t => t.2.1), fw.map (fun t => t.2.2.1),
    fw.map (fun t => t.2.2.2)⟩

/-- `flowisentropic(gamma, flow, mtype)`.  Arrays are flattened to lists
(`ndmin=1` makes a scalar a one-element list); the `sp.isreal` checks
are identically true over `ℝ` and have no embedded counterpart; each
`raise Exception(msg)` is `Except.error msg`. -/
def flowisentropic (gamma flow : List ℝ) (mtype : String) : Except String IsenOut :=
  if ∃ g ∈ gamma, g ≤ 1 then .error msgGamma
  else if 1 < gamma.length ∧ 1 < flow.length ∧ gamma.length ≠ flow.length then
    .error msgShape
  else
    let n := if flow.length ≤ gamma.length then gamma.length else flow.length
    let fl := broadcast n flow
    let ga := broadcast n gamma
    if mtype = "mach" ∨ mtype = "m" then
      if ∃ x ∈ fl, x < 0 then .error msgMach
      else .ok (isenOut ga (fl.map EF.fin))
    else if mtype = "temp" ∨ mtype = "t" then
      if (∃ x ∈ fl, x < 0) ∨ (∃ x ∈ fl, 1 < x) then .error msgTemp
      else .ok (isenOut ga (List.zipWith (fun g x =>
        if x = 0 then EF.pinf
        else EF.fin (Real.sqrt ((1 / ((g - 1) / 2)) * (x ^ (-1 : ℝ) - 1)))) ga fl))
    else if mtype = "pres" ∨ mtype = "p" then
      if (∃ x ∈ fl, x < 0) ∨ (∃ x ∈ fl, 1 < x) then .error msgPres
      else .ok (isenOut ga (List.zipWith (fun g x =>
        if x = 0 then EF.pinf
        else EF.fin (Real.sqrt ((1 / ((g - 1) / 2)) * (x ^ ((g - 1) / (-g)) - 1)))) ga fl))
    else if mtype = "dens" ∨ mtype = "d" ∨ mtype = "rho" then
      if (∃ x ∈ fl, x < 0) ∨ (∃ x ∈ fl, 1 < x) then .error msgDens
      else .ok (isenOut ga (List.zipWith (fun g x =>
        if x = 0 then EF.pinf
        else EF.fin (Real.sqrt ((1 / ((g - 1) / 2)) * (x ^ ((g - 1) / (-1 : ℝ)) - 1)))) ga fl))
    else if mtype = "sub" ∨ mtype = "sup" then
      if ∃ x ∈ fl, x < 1 then .error msgArea
      else
        let guess : ℝ := if mtype = "sub" then 0.2 else 1.8
        .ok (isenOut ga (List.zipWith (fun g x =>
          if x = 1 then EF.fin 1
          else EF.fin (newtonIter g x AETBiternum guess)) ga fl))
    else .error msgMode

/-- The forward normal-shock relations of `flownormalshock` at one
resolved upstream Mach value (the source does not special-case
`M = sp.inf` here --- its own `#TODO: handle M = sp.inf` marks that).
Returns `(M2, T, P, rho, P0, P1)` with `c = gamma/(gamma-1)`. -/
def shockFwd (gam : ℝ) (M : EF) : EF × EF × EF × EF × EF × EF :=
  let a := (gam + 1) / 2
  let b := (gam - 1) / 2
  let c := gam / (gam - 1)
  let M2 := EF.sqrt (EF.div (EF.add (EF.fin 1) (EF.mul (EF.fin b) (EF.sq M)))
    (EF.sub (EF.mul (EF.fin gam) (EF.sq M)) (EF.fin b)))
  let rho := EF.div (EF.mul (EF.fin (gam + 1)) (EF.sq M))
    (EF.add (EF.fin 2) (EF.mul (EF.fin (gam - 1)) (EF.sq M)))
  let P := EF.add (EF.fin 1)
    (EF.div (EF.mul (EF.sub (EF.sq M) (EF.fin 1)) (EF.fin gam)) (EF.fin a))
  let T := EF.div P rho
  let P0 := EF.mul P (EF.rpow T (-c))
  let P1 := EF.div
    (EF.mul
      (EF.rpow (EF.div (EF.mul (EF.fin (a ^ 2)) (EF.sq M))
        (EF.sub (EF.mul (EF.fin gam) (EF.sq M)) (EF.fin b))) c)
      (EF.add (EF.fin (1 - gam)) (EF.mul (EF.fin (2 * gam)) (EF.sq M))))
    (EF.fin (gam + 1))
  (M2, T, P, rho, P0, P1)

/-- The returned tuple `(M, M2, T, P, rho, P0, P1)` of
`flownormalshock`. -/
structure ShockOut where
  M : List EF
  M2 : List EF
  T : List EF
  P : List EF
  rho : List EF
  P0 : List EF
  P1 : List EF

/-- Assemble the `flownormalshock` return value from the resolved
upstream Mach list. -/
def shockOut (gam : List ℝ) (M : List EF) : ShockOut :=
  let fw := List.zipWith shockFwd gam M
  ⟨M, fw.map (fun t => t.1), fw.map (fun t => t.2.1), fw.map (fun t => t.2.2.1),
    fw.map (fun t => t.2.2.2.1), fw.map (fun t => t.2.2.2.2.1),
    fw.map (fun t => t.2.2.2.2.2)⟩

/-- `flownormalshock(gamma, flow, mtype)`: validation and broadcast as in
`flowisentropic`, then the inverse dispatcher for the upstream Mach
number, then the forward shock relations. -/
def flownormalshock (gamma flow : List ℝ) (mtype : String) : Except String ShockOut :=
  if ∃ g ∈ gamma, g ≤ 1 then .error msgGamma
  else if 1 < gamma.length ∧ 1 < flow.length ∧ gamma.length ≠ flow.length then
    .error msgShape
  else
    let n := if flow.length ≤ gamma.length then gamma.length else flow.length
    let fl := broadcast n flow
    let ga := broadcast n gamma
    if mtype = "mach" ∨ mtype = "m1" ∨ mtype = "m" then
      if ∃ x ∈ fl, x < 1 then .error msgShockMach
      else .ok (shockOut ga (fl.map EF.fin))
    else if mtype = "down" ∨ mtype = "mach2" ∨ mtype = "m2" ∨ mtype = "md" then
      if (∃ p ∈ ga.zip fl, p.2 < Real.sqrt ((p.1 - 1) / (2 * p.1))) ∨ (∃ x ∈ fl, 1 < x) then
        .error msgShockDown
      else .ok (shockOut ga (List.zipWith (fun g x =>
        if x ≤ Real.sqrt ((g - 1) / (2 * g)) then EF.pinf
        else EF.fin (Real.sqrt ((1 + ((g - 1) / 2) * x ^ 2) / (g * x ^ 2 - (g - 1) / 2)))) ga fl))
    else if mtype = "pres" ∨ mtype = "p" then
      if ∃ x ∈ fl, x < 1 then .error msgShockPres
      else .ok (shockOut ga (List.zipWith (fun g x =>
        EF.fin (Real.sqrt ((x - 1) * (g + 1) / (2 * g) + 1))) ga fl))
    else if mtype = "dens" ∨ mtype = "d" ∨ mtype = "rho" then
      if (∃ x ∈ fl, x < 1) ∨ (∃ p ∈ ga.zip fl, (p.1 + 1) / (p.1 - 1) < p.2) then
        .error msgShockDens
      else .ok (shockOut ga (List.zipWith (fun g x =>
        if (g + 1) / (g - 1) ≤ x then EF.pinf
        else EF.fin (Real.sqrt (2 * x / (1 + g + x - x * g)))) ga fl))
    else .error msgMode

/-- Gas constant `R = 287.053` of `atmosisa`. -/
def Rgas : ℝ := 287.053

/-- Gravitational acceleration `g = 9.80665` of `atmosisa`. -/
def gAccel : ℝ := 9.80665

/-- Effective earth radius `Re = 6356766.0` of `atmosisa`. -/
def Rearth : ℝ := 6356766.0

/-- Base altitudes `Hb` in meters (the 8-entry table
`[0, 11, 20, 32, 47, 51, 71, 84.852] * 1000`). -/
def HbV : ℕ → ℝ
  | 0 => 0
  | 1 => 11000
  | 2 => 20000
  | 3 => 32000
  | 4 => 47000
  | 5 => 51000
  | 6 => 71000
  | _ => 84852

/-- Lapse rates `Lr` in K/m (the 7-entry table
`[-6.5, 0, 1, 2.8, 0, -2.8, -2.0] * 0.001`). -/
def LrV : ℕ → ℝ
  | 0 => -0.0065
  | 1 => 0
  | 2 => 0.001
  | 3 => 0.0028
  | 4 => 0
  | 5 => -0.0028
  | 6 => -0.002
  | _ => 0

/-- The running base temperature `Tb` of the `atmosisa` layer loop after
processing `i` layers (the isothermal branch leaves `Tb` unchanged, the
lapse branch advances it to the top of the layer:
`Tt = Tb + Lr[i]*(Hb[i+1]-Hb[i])`). -/
def baseT (T0 : ℝ) : ℕ → ℝ
  | 0 => T0
  | i + 1 =>
    if LrV i = 0 then baseT T0 i
    else baseT T0 i + LrV i * (HbV (i + 1) - HbV i)

/-- The running base pressure `Pb` after processing `i` layers
(`Pb *= exp((-g/(R*Tb))*(Hb[i+1]-Hb[i]))` in an isothermal layer,
`Pb *= (Tt/Tb)**(-g/(Lr[i]*R))` in a lapse layer). -/
def baseP (T0 P0 : ℝ) : ℕ → ℝ
  | 0 => P0
  | i + 1 =>
    if LrV i = 0 then
      baseP T0 P0 i * Real.exp (-gAccel / (Rgas * baseT T0 i) * (HbV (i + 1) - HbV i))
    else
      baseP T0 P0 i *
        ((baseT T0 i + LrV i * (HbV (i + 1) - HbV i)) / baseT T0 i) ^
          (-gAccel / (LrV i * Rgas))

/-- The in-layer temperature formula `T[s]` of layer `i` at a finite
geopotential altitude `h` (`T = Tb` isothermal,
`T = Tb + Lr[i]*(h-Hb[i])` with lapse). -/
def layerT (T0 : ℝ) (i : ℕ) (h : ℝ) : ℝ :=
  if LrV i = 0 then baseT T0 i else baseT T0 i + LrV i * (h - HbV i)

/-- The in-layer pressure formula `P[s]` of layer `i` at a finite
geopotential altitude `h` (`P = Pb*exp((-g/(R*Tb))*(h-Hb[i]))`
isothermal, `P = Pb*(T[s]/Tb)**(-g/(Lr[i]*R))` with lapse). -/
def layerP (T0 P0 : ℝ) (i : ℕ) (h : ℝ) : ℝ :=
  if LrV i = 0 then
    baseP T0 P0 i * Real.exp (-gAccel / (Rgas * baseT T0 i) * (h - HbV i))
  else
    baseP T0 P0 i * (layerT T0 i h / baseT T0 i) ^ (-gAccel / (LrV i * Rgas))

/-- `T[s]` of layer `i` at an IEEE altitude value. -/
def efLayerT (T0 : ℝ) (i : ℕ) (h : EF) : EF :=
  if LrV i = 0 then EF.fin (baseT T0 i)
  else EF.add (EF.fin (baseT T0 i)) (EF.mul (EF.fin (LrV i)) (EF.sub h (EF.fin (HbV i))))

/-- `P[s]` of layer `i` at an IEEE altitude value. -/
def efLayerP (T0 P0 : ℝ) (i : ℕ) (h : EF) : EF :=
  if LrV i = 0 then
    EF.mul (EF.fin (baseP T0 P0 i))
      (EF.exp (EF.mul (EF.fin (-gAccel / (Rgas * baseT T0 i))) (EF.sub h (EF.fin (HbV i)))))
  else
    EF.mul (EF.fin (baseP T0 P0 i))
      (EF.rpow (EF.div (efLayerT T0 i h) (EF.fin (baseT T0 i))) (-gAccel / (LrV i * Rgas)))

/-- The selection bound of layer `i`: iteration 0 selects `h > -inf`,
iteration `i > 0` selects `h > Hb[i]`. -/
def layerBound (i : ℕ) : EF := if i = 0 then EF.ninf else EF.fin (HbV i)

/-- The layer loop of `atmosisa` for one altitude sample: starting at
layer `i` with `rem` layers remaining and the last computed `(T, P)`
pair, overwrite the pair while the sample is selected and stop at the
first unselected layer (the `break`; since `Hb` is increasing, a sample
unselected at layer `i` is unselected at every later layer, so the whole
loop is this per-sample walk).  The running `(Tb, Pb)` of the source is
`(baseT T0 i, baseP T0 P0 i)`, whose defining equations are exactly the
source's base updates. -/
def atmosWalk (T0 P0 : ℝ) (h : EF) : ℕ → ℕ → EF × EF → EF × EF
  | 0, _, cur => cur
  | rem + 1, i, cur =>
    if EF.lt (layerBound i) h then
      atmosWalk T0 P0 h rem (i + 1) (efLayerT T0 i h, efLayerP T0 P0 i h)
    else cur

/-- `atmosisa(h, mtype, T0, P0)`: geometric altitudes are converted by
`h *= Re/(Re+h)` (IEEE arithmetic: the division is unguarded), then the
seven-layer walk runs from the base conditions `(T0, P0)`; returns
`(T, a, P, rho)` with `a = sqrt(1.4*R*T)` and `rho = P/(R*T)`.  The
`sp.isreal` height check is identically true over `ℝ`. -/
def atmosisa (h : List ℝ) (mtype : String) (T0 P0 : ℝ) :
    Except String (List EF × List EF × List EF × List EF) :=
  if mtype = "geop" ∨ mtype = "geom" then
    let hE : List EF :=
      if mtype = "geop" then h.map EF.fin
      else h.map (fun x =>
        EF.mul (EF.fin x) (EF.div (EF.fin Rearth) (EF.add (EF.fin Rearth) (EF.fin x))))
    let TP := hE.map (fun x => atmosWalk T0 P0 x 7 0 (EF.fin T0, EF.fin P0))
    let T := TP.map (fun t => t.1)
    let P := TP.map (fun t => t.2)
    .ok (T, T.map (fun t => EF.sqrt (EF.mul (EF.fin (1.4 * Rgas)) t)), P,
      TP.map (fun t => EF.div t.2 (EF.mul (EF.fin Rgas) t.1)))
  else .error msgMode

theorem isen_mach_eval (gam fl : ℝ) (hg : 1 < gam) (hf : 0 ≤ fl) :
    flowisentropic [gam] [fl] "mach" = .ok (isenOut [gam] [EF.fin fl]) := by
  simp [flowisentropic, broadcast, hg.not_le, hf.not_lt]

theorem isen_temp_eval (gam fl : ℝ) (hg : 1 < gam) (h0 : 0 ≤ fl) (h1 : fl ≤ 1) :
    flowisentropic [gam] [fl] "temp" =
      .ok (isenOut [gam] [if fl = 0 then EF.pinf
        else EF.fin (Real.sqrt ((1 / ((gam - 1) / 2)) * (fl ^ (-1 : ℝ) - 1)))]) := by
  simp [flowisentropic, broadcast, hg.not_le, h0.not_lt, h1.not_lt]

theorem isen_pres_eval (gam fl : ℝ) (hg : 1 < gam) (h0 : 0 ≤ fl) (h1 : fl ≤ 1) :
    flowisentropic [gam] [fl] "pres" =
      .ok (isenOut [gam] [if fl = 0 then EF.pinf
        else EF.fin (Real.sqrt ((1 / ((gam - 1) / 2)) * (fl ^ ((gam - 1) / (-gam)) - 1)))]) := by
  simp [flowisentropic, broadcast, hg.not_le, h0.not_lt, h1.not_lt]

theorem isen_dens_eval (gam fl : ℝ) (hg : 1 < gam) (h0 : 0 ≤ fl) (h1 : fl ≤ 1) :
    flowisentropic [gam] [fl] "dens" =
      .ok (isenOut [gam] [if fl = 0 then EF.pinf
        else EF.fin (Real.sqrt ((1 / ((gam - 1) / 2)) * (fl ^ ((gam - 1) / (-1 : ℝ)) - 1)))]) := by
  simp [flowisentropic, broadcast, hg.not_le, h0.not_lt, h1.not_lt]

theorem isen_sup_eval (gam fl : ℝ) (hg : 1 < gam) (hf : 1 ≤ fl) :
    flowisentropic [gam] [fl] "sup" =
      .ok (isenOut [gam] [if fl = 1 then EF.fin 1
        else EF.fin (newtonIter gam fl AETBiternum 1.8)]) := by
  simp [flowisentropic, broadcast, hg.not_le, hf.not_lt]

theorem shock_mach_eval (gam fl : ℝ) (hg : 1 < gam) (hf : 1 ≤ fl) :
    flownormalshock [gam] [fl] "mach" = .ok (shockOut [gam] [EF.fin fl]) := by
  simp [flownormalshock, broadcast, hg.not_le, hf.not_lt]

theorem shock_down_eval (gam fl : ℝ) (hg : 1 < gam)
    (h0 : Real.sqrt ((gam - 1) / (2 * gam)) ≤ fl) (h1 : fl ≤ 1) :
    flownormalshock [gam] [fl] "down" =
      .ok (shockOut [gam] [if fl ≤ Real.sqrt ((gam - 1) / (2 * gam)) then EF.pinf
        else EF.fin (Real.sqrt ((1 + ((gam - 1) / 2) * fl ^ 2) /
          (gam * fl ^ 2 - (gam - 1) / 2)))]) := by
  simp [flownormalshock, broadcast, hg.not_le, h0.not_lt, h1.not_lt]

theorem shock_pres_eval (gam fl : ℝ) (hg : 1 < gam) (hf : 1 ≤ fl) :
    flownormalshock [gam] [fl] "pres" =
      .ok (shockOut [gam] [EF.fin (Real.sqrt ((fl - 1) * (gam + 1) / (2 * gam) + 1))]) := by
  simp [flownormalshock, broadcast, hg.not_le, hf.not_lt]

theorem shock_dens_eval (gam fl : ℝ) (hg : 1 < gam) (h0 : 1 ≤ fl)
    (h1 : fl ≤ (gam + 1) / (gam - 1)) :
    flownormalshock [gam] [fl] "dens" =
      .ok (shockOut [gam] [if (gam + 1) / (gam - 1) ≤ fl then EF.pinf
        else EF.fin (Real.sqrt (2 * fl / (1 + gam + fl - fl * gam)))]) := by
  simp [flownormalshock, broadcast, hg.not_le, h0.not_lt, h1.not_lt]

theorem shockOut_singleton (g : ℝ) (m : EF) :
    shockOut [g] [m] = ⟨[m], [(shockFwd g m).1], [(shockFwd g m).2.1],
      [(shockFwd g m).2.2.1], [(shockFwd g m).2.2.2.1], [(shockFwd g m).2.2.2.2.1],
      [(shockFwd g m).2.2.2.2.2]⟩ := by
  simp [shockOut]

theorem isenFwd_fin (gam m : ℝ) (hg : 1 < gam) :
    isenFwd gam (EF.fin m) =
      (EF.fin ((1 + (gam - 1) / 2 * (m * m)) ^ (-1 : ℝ)),
       EF.fin ((1 + (gam - 1) / 2 * (m * m)) ^ (-gam / (gam - 1))),
       EF.fin ((1 + (gam - 1) / 2 * (m * m)) ^ (-1 / (gam - 1))),
       if m = 0 then EF.pinf
       else EF.fin (((gam + 1) / 2) ^ (-((gam + 1) / 2 / (gam - 1))) *
         (1 + (gam - 1) / 2 * (m * m)) ^ ((gam + 1) / 2 / (gam - 1)) / m)) := by
  have hd : (0:ℝ) < 1 + (gam - 1) / 2 * (m * m) := by nlinarith [mul_self_nonneg m]
  unfold isenFwd
  simp only [EF.sq_fin, EF.mul_fin, EF.add_fin, EF.rpow_fin_pos hd]
  by_cases hm : m = 0
  · subst hm
    simp
  · simp only [EF.fin_ne_pinf, EF.fin_ne_ninf, EF.fin_inj, hm, if_false, false_or,
      or_self, EF.mul_fin]
    rw [EF.div_fin_fin hm]

theorem shockFwd_fin (gam m : ℝ) (hg : 1 < gam) (hm : 1 ≤ m) :
    shockFwd gam (EF.fin m) =
      (EF.fin (Real.sqrt ((1 + (gam - 1) / 2 * (m * m)) / (gam * (m * m) - (gam - 1) / 2))),
       EF.fin ((1 + (m * m - 1) * gam / ((gam + 1) / 2)) /
         ((gam + 1) * (m * m) / (2 + (gam - 1) * (m * m)))),
       EF.fin (1 + (m * m - 1) * gam / ((gam + 1) / 2)),
       EF.fin ((gam + 1) * (m * m) / (2 + (gam - 1) * (m * m))),
       EF.fin ((1 + (m * m - 1) * gam / ((gam + 1) / 2)) *
         ((1 + (m * m - 1) * gam / ((gam + 1) / 2)) /
           ((gam + 1) * (m * m) / (2 + (gam - 1) * (m * m)))) ^ (-(gam / (gam - 1)))),
       EF.fin ((((gam + 1) / 2) ^ 2 * (m * m) / (gam * (m * m) - (gam - 1) / 2)) ^
           (gam / (gam - 1)) *
         (1 - gam + 2 * gam * (m * m)) / (gam + 1))) := by
  have hm0 : (0:ℝ) < m := lt_of_lt_of_le one_pos hm
  have hmm : (1:ℝ) ≤ m * m := by nlinarith
  have hden : (0:ℝ) < gam * (m * m) - (gam - 1) / 2 := by nlinarith
  have hrho0 : (0:ℝ) < 2 + (gam - 1) * (m * m) := by nlinarith
  have hrho : (0:ℝ) < (gam + 1) * (m * m) / (2 + (gam - 1) * (m * m)) :=
    div_pos (by nlinarith) hrho0
  have hP : (0:ℝ) < 1 + (m * m - 1) * gam / ((gam + 1) / 2) := by
    have : (0:ℝ) ≤ (m * m - 1) * gam / ((gam + 1) / 2) :=
      div_nonneg (by nlinarith) (by linarith)
    linarith
  have hT : (0:ℝ) < (1 + (m * m - 1) * gam / ((gam + 1) / 2)) /
      ((gam + 1) * (m * m) / (2 + (gam - 1) * (m * m))) := div_pos hP hrho
  have hP1b : (0:ℝ) < ((gam + 1) / 2) ^ 2 * (m * m) / (gam * (m * m) - (gam - 1) / 2) :=
    div_pos (by positivity) hden
  unfold shockFwd
  simp only [EF.sq_fin, EF.mul_fin, EF.add_fin, EF.sub_fin, EF.mul_fin,
    EF.div_fin_fin hden.ne', EF.div_fin_fin hrho0.ne', EF.div_fin_fin hrho.ne',
    EF.div_fin_fin (by positivity : ((gam + 1) / 2 : ℝ) ≠ 0),
    EF.rpow_fin_pos hT, EF.rpow_fin_pos hP1b,
    EF.div_fin_fin (by positivity : (gam + 1 : ℝ) ≠ 0)]
  rw [EF.sqrt_fin (le_of_lt (div_pos (by nlinarith) hden))]

theorem shockFwd_pinf (gam : ℝ) (hg : 1 < gam) :
    shockFwd gam EF.pinf = (EF.nan, EF.nan, EF.pinf, EF.nan, EF.nan, EF.nan) := by
  have hb : (0:ℝ) < (gam - 1) / 2 := by linarith
  have hgam : (0:ℝ) < gam := by linarith
  have ha : (0:ℝ) ≤ (gam + 1) / 2 := by linarith
  have ha2 : (0:ℝ) < ((gam + 1) / 2) ^ 2 := by positivity
  have hc : gam / (gam - 1) ≠ 0 := (div_pos hgam (by linarith)).ne'
  have h2g : (0:ℝ) < 2 * gam := by linarith
  unfold shockFwd
  simp only [EF.sq_pinf, EF.mul_fin_pinf_pos hb, EF.mul_fin_pinf_pos hgam,
    EF.mul_fin_pinf_pos ha2, EF.mul_fin_pinf_pos h2g,
    EF.mul_fin_pinf_pos (by linarith : (0:ℝ) < gam + 1),
    EF.mul_fin_pinf_pos (by linarith : (0:ℝ) < gam - 1),
    EF.add_fin_pinf, EF.sub_pinf_fin, EF.div_pinf_pinf, EF.sqrt_nan,
    EF.mul_pinf_fin_pos hgam, EF.div_pinf_fin ha, EF.div_pinf_nan,
    EF.rpow_nan (neg_ne_zero.mpr hc), EF.rpow_nan hc, EF.mul_pinf_nan,
    EF.mul_nan, EF.div_nan]

theorem isen_sub_eval (gam fl : ℝ) (hg : 1 < gam) (hf : 1 ≤ fl) :
    flowisentropic [gam] [fl] "sub" =
      .ok (isenOut [gam] [if fl = 1 then EF.fin 1
        else EF.fin (newtonIter gam fl AETBiternum 0.2)]) := by
  simp [flowisentropic, broadcast, hg.not_le, hf.not_lt]

theorem isenOut_singleton (g : ℝ) (m : EF) :
    isenOut [g] [m] = ⟨[m], [(isenFwd g m).1], [(isenFwd g m).2.1],
      [(isenFwd g m).2.2.1], [(isenFwd g m).2.2.2]⟩ := by
  simp [isenOut]

theorem broadcast_length_self (xs : List ℝ) : broadcast xs.length xs = xs := by
  unfold broadcast
  split_ifs with h
  · cases xs with
    | nil => simp at h
    | cons a t =>
      cases t with
      | nil => rfl
      | cons b t2 => simp at h
  · rfl
theorem isen_sonic_elem (gs fs : List ℝ) (mt : String) (out : IsenOut) (j : ℕ)
    (hmt : mt = "sub" ∨ mt = "sup") (hgs : 0 < gs.length) (hlen : gs.length ≤ fs.length)
    (hok : flowisentropic gs fs mt = .ok out) (hfj : fs.get? j = some 1) :
    out.M.get? j = some (EF.fin 1) := by
  have hjlt : j < fs.length := by
    by_contra hcon
    rw [List.get?_eq_none.mpr (le_of_not_lt hcon)] at hfj
    cases hfj
  unfold flowisentropic at hok
  by_cases hA : ∃ g ∈ gs, g ≤ 1
  · rw [if_pos hA] at hok; cases hok
  rw [if_neg hA] at hok
  by_cases hB : 1 < gs.length ∧ 1 < fs.length ∧ gs.length ≠ fs.length
  · rw [if_pos hB] at hok; cases hok
  rw [if_neg hB] at hok
  have hn : (if fs.length ≤ gs.length then gs.length else fs.length) = fs.length := by
    split_ifs with h
    · omega
    · rfl
  rw [hn] at hok
  simp only [] at hok
  rw [broadcast_length_self fs] at hok
  have hga : (broadcast fs.length gs).length = fs.length := by
    unfold broadcast
    split_ifs with h1
    · simp
    · have : gs.length = 1 ∨ 1 < gs.length := by omega
      rcases this with h | h
      · exact absurd h h1
      · have h2 : 1 < fs.length := lt_of_lt_of_le h hlen
        omega
  rcases hmt with h | h <;> subst h
  all_goals {
    rw [if_neg (by decide), if_neg (by decide), if_neg (by decide),
      if_neg (by decide), if_pos (by decide)] at hok
    by_cases hC : ∃ x ∈ fs, x < 1
    · rw [if_pos hC] at hok; cases hok
    rw [if_neg hC] at hok
    injection hok with hok
    subst hok
    simp only [isenOut]
    rw [List.get?_zipWith_eq_some]
    refine ⟨(broadcast fs.length gs).get ⟨j, by omega⟩, 1, ?_, hfj, by simp⟩
    exact List.get?_eq_get (by omega)
  }

/-- C3: for every `gamma > 1`, `flowisentropic(gamma, 1.0, 'sub')` and
`flowisentropic(gamma, 1.0, 'sup')` both return Mach number exactly 1;
more generally, after the Newton iteration every element whose
area-ratio input equals 1 has its Mach number forced to exactly 1. -/
theorem isen_sonic_point (gam : ℝ) (hg : 1 < gam) :
    (∃ out, flowisentropic [gam] [1] "sub" = .ok out ∧ out.M = [EF.fin 1]) ∧
    (∃ out, flowisentropic [gam] [1] "sup" = .ok out ∧ out.M = [EF.fin 1]) ∧
    (∀ (gs fs : List ℝ) (mt : String) (out : IsenOut) (j : ℕ),
      (mt = "sub" ∨ mt = "sup") → 0 < gs.length → gs.length ≤ fs.length →
      flowisentropic gs fs mt = .ok out → fs.get? j = some 1 →
      out.M.get? j = some (EF.fin 1)) := by
  refine ⟨⟨_, isen_sub_eval gam 1 hg le_rfl, by simp [isenOut]⟩,
    ⟨_, isen_sup_eval gam 1 hg le_rfl, by simp [isenOut]⟩,
    fun gs fs mt out j hmt hgs hlen hok hfj =>
      isen_sonic_elem gs fs mt out j hmt hgs hlen hok hfj⟩

/-- Witness for C3 at `gamma = 1.4` (scalar calls) and at the array call
`gamma = [1.4], flow = [1, 2]` (elementwise override). -/
theorem isen_sonic_point_witness :
    (1:ℝ) < 1.4 ∧
    (∃ out, flowisentropic [1.4] [1] "sub" = .ok out ∧ out.M = [EF.fin 1]) ∧
    (∃ out, flowisentropic [1.4] [1] "sup" = .ok out ∧ out.M = [EF.fin 1]) := by
  refine ⟨by norm_num, (isen_sonic_point 1.4 (by norm_num)).1,
    (isen_sonic_point 1.4 (by norm_num)).2.1⟩

theorem isenFwd_pinf (gam : ℝ) (hg : 1 < gam) :
    isenFwd gam EF.pinf = (EF.fin 0, EF.fin 0, EF.fin 0, EF.fin 0) := by
  have hb : (0:ℝ) < (gam - 1) / 2 := by linarith
  have h1 : (-1 : ℝ) < 0 := by norm_num
  have h2 : -gam / (gam - 1) < 0 := div_neg_of_neg_of_pos (by linarith) (by linarith)
  have h3 : (-1 : ℝ) / (gam - 1) < 0 := div_neg_of_neg_of_pos (by norm_num) (by linarith)
  unfold isenFwd
  simp only [EF.sq_pinf, EF.mul_fin_pinf_pos hb, EF.add_fin_pinf,
    EF.rpow_pinf_neg h1, EF.rpow_pinf_neg h2, EF.rpow_pinf_neg h3]
  simp

/-- C4 (amended): for every `gamma > 1`,
`flowisentropic(gamma, 0.0, 'temp')` returns Mach number `M = +inf` and
area ratio `0` (the `isinf(M)` limiting value of the mach-area
relation), not `+inf`. -/
theorem isen_temp_zero (gam : ℝ) (hg : 1 < gam) :
    ∃ out, flowisentropic [gam] [0] "temp" = .ok out ∧ out.M = [EF.pinf] ∧
      out.area = [EF.fin 0] := by
  refine ⟨_, isen_temp_eval gam 0 hg le_rfl (by norm_num), ?_, ?_⟩
  · simp [isenOut]
  · simp [isenOut, isenFwd_pinf gam hg]

/-- Witness for the amended C4 at `gamma = 1.4`. -/
theorem isen_temp_zero_witness :
    (1:ℝ) < 1.4 ∧ ∃ out, flowisentropic [1.4] [0] "temp" = .ok out ∧
      out.M = [EF.pinf] ∧ out.area = [EF.fin 0] :=
  ⟨by norm_num, isen_temp_zero 1.4 (by norm_num)⟩

/-- C4 counterexample: at `gamma = 1.4`, `flowisentropic(1.4, 0.0, 'temp')`
does return `M = +inf`, but its area ratio is `0` and not `+inf` as the
claim states. -/
theorem isen_temp_zero_cx :
    ∃ out, flowisentropic [1.4] [0] "temp" = .ok out ∧ out.M = [EF.pinf] ∧
      out.area = [EF.fin 0] ∧ out.area ≠ [EF.pinf] := by
  refine ⟨_, isen_temp_eval 1.4 0 (by norm_num) le_rfl (by norm_num), ?_, ?_, ?_⟩
  · simp [isenOut]
  · simp [isenOut, isenFwd_pinf 1.4 (by norm_num)]
  · simp [isenOut, isenFwd_pinf 1.4 (by norm_num)]

/-- C5: in the forward isentropic relations the area ratio is `+inf`
where the resolved Mach number is `0`, is `0` where the resolved Mach
number is the infinite sentinel, and otherwise equals
`a^(-c) * d^c / M` with `d = 1 + b*M^2`, `a = (gamma+1)/2`,
`b = (gamma-1)/2`, `c = a/(gamma-1)`. -/
theorem isen_area_cases (gam m : ℝ) (hg : 1 < gam) (hm : m ≠ 0) :
    (isenFwd gam (EF.fin 0)).2.2.2 = EF.pinf ∧
    (isenFwd gam EF.pinf).2.2.2 = EF.fin 0 ∧
    (isenFwd gam (EF.fin m)).2.2.2 =
      EF.fin (((gam + 1) / 2) ^ (-(((gam + 1) / 2) / (gam - 1))) *
        (1 + (gam - 1) / 2 * (m * m)) ^ (((gam + 1) / 2) / (gam - 1)) / m) := by
  refine ⟨?_, ?_, ?_⟩
  · rw [isenFwd_fin gam 0 hg]
    simp
  · rw [isenFwd_pinf gam hg]
  · rw [isenFwd_fin gam m hg]
    simp [hm]

/-- Witness for C5 at `gamma = 1.4`, `M = 2`. -/
theorem isen_area_cases_witness :
    (1:ℝ) < 1.4 ∧ (2:ℝ) ≠ 0 ∧
    (isenFwd 1.4 (EF.fin 0)).2.2.2 = EF.pinf ∧
    (isenFwd 1.4 EF.pinf).2.2.2 = EF.fin 0 ∧
    (isenFwd 1.4 (EF.fin 2)).2.2.2 =
      EF.fin (((1.4 + 1) / 2) ^ (-((((1.4 : ℝ) + 1) / 2) / (1.4 - 1))) *
        (1 + (1.4 - 1) / 2 * (2 * 2)) ^ ((((1.4 : ℝ) + 1) / 2) / (1.4 - 1)) / 2) := by
  have h := isen_area_cases 1.4 2 (by norm_num) (by norm_num)
  exact ⟨by norm_num, by norm_num, h.1, h.2.1, h.2.2⟩

/-- C9: for every `gamma > 1`, the `down` mode at its lower bound
`sqrt((gamma-1)/(2*gamma))` and the `dens` mode at its upper bound
`(gamma+1)/(gamma-1)` resolve the upstream Mach number to `+inf`, and
the unmodified forward shock formulas propagate `inf`/`nan` into the
downstream outputs (`M2` and the four pressure/temperature/density
outputs) instead of special-casing the infinite Mach. -/
theorem shock_inf_bounds (gam : ℝ) (hg : 1 < gam) :
    (∃ out, flownormalshock [gam] [Real.sqrt ((gam - 1) / (2 * gam))] "down" = .ok out ∧
      out.M = [EF.pinf] ∧ out.M2 = [EF.nan] ∧ out.T = [EF.nan] ∧ out.P = [EF.pinf] ∧
      out.rho = [EF.nan] ∧ out.P0 = [EF.nan] ∧ out.P1 = [EF.nan]) ∧
    (∃ out, flownormalshock [gam] [(gam + 1) / (gam - 1)] "dens" = .ok out ∧
      out.M = [EF.pinf] ∧ out.M2 = [EF.nan] ∧ out.T = [EF.nan] ∧ out.P = [EF.pinf] ∧
      out.rho = [EF.nan] ∧ out.P0 = [EF.nan] ∧ out.P1 = [EF.nan]) := by
  have hlb1 : Real.sqrt ((gam - 1) / (2 * gam)) ≤ 1 := by
    have h2 : (gam - 1) / (2 * gam) ≤ 1 := by
      rw [div_le_one (by linarith)]
      linarith
    calc Real.sqrt ((gam - 1) / (2 * gam)) ≤ Real.sqrt 1 := Real.sqrt_le_sqrt h2
      _ = 1 := Real.sqrt_one
  have hub1 : (1:ℝ) ≤ (gam + 1) / (gam - 1) := by
    rw [le_div_iff₀ (by linarith)]
    linarith
  constructor
  · refine ⟨_, shock_down_eval gam _ hg le_rfl hlb1, ?_⟩
    rw [if_pos le_rfl, shockOut_singleton, shockFwd_pinf gam hg]
    simp
  · refine ⟨_, shock_dens_eval gam _ hg hub1 le_rfl, ?_⟩
    rw [if_pos le_rfl, shockOut_singleton, shockFwd_pinf gam hg]
    simp

/-- Witness for C9 at `gamma = 1.4`. -/
theorem shock_inf_bounds_witness :
    (1:ℝ) < 1.4 ∧
    (∃ out, flownormalshock [1.4] [Real.sqrt ((1.4 - 1) / (2 * 1.4))] "down" = .ok out ∧
      out.M = [EF.pinf] ∧ out.M2 = [EF.nan] ∧ out.T = [EF.nan] ∧ out.P = [EF.pinf] ∧
      out.rho = [EF.nan] ∧ out.P0 = [EF.nan] ∧ out.P1 = [EF.nan]) ∧
    (∃ out, flownormalshock [1.4] [(1.4 + 1) / (1.4 - 1)] "dens" = .ok out ∧
      out.M = [EF.pinf] ∧ out.M2 = [EF.nan] ∧ out.T = [EF.nan] ∧ out.P = [EF.pinf] ∧
      out.rho = [EF.nan] ∧ out.P0 = [EF.nan] ∧ out.P1 = [EF.nan]) := by
  have h := shock_inf_bounds 1.4 (by norm_num)
  exact ⟨by norm_num, h.1, h.2⟩

/-- C8: every invalid input (gamma <= 1, flow outside the selected mode
range, two non-scalar inputs of differing shapes, or an unrecognized
mode string) makes the call fail with the corresponding distinct error
kind --- the source raises one exception type whose message identifies
the kind --- and return no value and no partial result. -/
theorem error_handling :
    (∀ (gam fl : ℝ) (mt : String), gam ≤ 1 →
      flowisentropic [gam] [fl] mt = .error msgGamma ∧
      flownormalshock [gam] [fl] mt = .error msgGamma) ∧
    (∀ (gs fs : List ℝ) (mt : String), (∀ g ∈ gs, 1 < g) →
      1 < gs.length → 1 < fs.length → gs.length ≠ fs.length →
      flowisentropic gs fs mt = .error msgShape ∧
      flownormalshock gs fs mt = .error msgShape) ∧
    (∀ (gam fl : ℝ), 1 < gam →
      (fl < 0 → flowisentropic [gam] [fl] "mach" = .error msgMach) ∧
      (fl < 0 ∨ 1 < fl → flowisentropic [gam] [fl] "temp" = .error msgTemp) ∧
      (fl < 0 ∨ 1 < fl → flowisentropic [gam] [fl] "pres" = .error msgPres) ∧
      (fl < 0 ∨ 1 < fl → flowisentropic [gam] [fl] "dens" = .error msgDens) ∧
      (fl < 1 → flowisentropic [gam] [fl] "sub" = .error msgArea) ∧
      (fl < 1 → flowisentropic [gam] [fl] "sup" = .error msgArea) ∧
      (fl < 1 → flownormalshock [gam] [fl] "mach" = .error msgShockMach) ∧
      (fl < Real.sqrt ((gam - 1) / (2 * gam)) ∨ 1 < fl →
        flownormalshock [gam] [fl] "down" = .error msgShockDown) ∧
      (fl < 1 → flownormalshock [gam] [fl] "pres" = .error msgShockPres) ∧
      (fl < 1 ∨ (gam + 1) / (gam - 1) < fl →
        flownormalshock [gam] [fl] "dens" = .error msgShockDens)) ∧
    (∀ (gam fl : ℝ) (mt : String), 1 < gam →
      mt ∉ (["mach", "m", "temp", "t", "pres", "p", "dens", "d", "rho",
        "sub", "sup"] : List String) →
      flowisentropic [gam] [fl] mt = .error msgMode) ∧
    (∀ (gam fl : ℝ) (mt : String), 1 < gam →
      mt ∉ (["mach", "m1", "m", "down", "mach2", "m2", "md", "pres", "p",
        "dens", "d", "rho"] : List String) →
      flownormalshock [gam] [fl] mt = .error msgMode) ∧
    (∀ (h : List ℝ) (mt : String) (T0 P0 : ℝ), mt ≠ "geop" → mt ≠ "geom" →
      atmosisa h mt T0 P0 = .error msgMode) ∧
    (msgGamma ≠ msgShape ∧ msgGamma ≠ msgMode ∧ msgShape ≠ msgMode ∧
      msgMach ≠ msgMode ∧ msgShape ≠ msgMach) := by
  refine ⟨?_, ?_, ?_, ?_, ?_, ?_, by refine ⟨?_, ?_, ?_, ?_, ?_⟩ <;> decide⟩
  · intro gam fl mt hg
    constructor <;> simp [flowisentropic, flownormalshock, hg]
  · intro gs fs mt hgs h1 h2 h3
    have hA : ¬ ∃ g ∈ gs, g ≤ 1 := by
      rintro ⟨g, hmem, hle⟩
      exact absurd hle (hgs g hmem).not_le
    constructor
    · unfold flowisentropic
      rw [if_neg hA, if_pos ⟨h1, h2, h3⟩]
    · unfold flownormalshock
      rw [if_neg hA, if_pos ⟨h1, h2, h3⟩]
  · intro gam fl hg
    refine ⟨?_, ?_, ?_, ?_, ?_, ?_, ?_, ?_, ?_, ?_⟩
    · intro hc; simp [flowisentropic, broadcast, hg.not_le, hc]
    · rintro (hc | hc) <;> simp [flowisentropic, broadcast, hg.not_le, hc]
    · rintro (hc | hc) <;> simp [flowisentropic, broadcast, hg.not_le, hc]
    · rintro (hc | hc) <;> simp [flowisentropic, broadcast, hg.not_le, hc]
    · intro hc; simp [flowisentropic, broadcast, hg.not_le, hc]
    · intro hc; simp [flowisentropic, broadcast, hg.not_le, hc]
    · intro hc; simp [flownormalshock, broadcast, hg.not_le, hc]
    · rintro (hc | hc) <;> simp [flownormalshock, broadcast, hg.not_le, hc]
    · intro hc; simp [flownormalshock, broadcast, hg.not_le, hc]
    · rintro (hc | hc) <;> simp [flownormalshock, broadcast, hg.not_le, hc]
  · intro gam fl mt hg hmt
    simp only [List.mem_cons, List.not_mem_nil, or_false, not_or] at hmt
    obtain ⟨e1, e2, e3, e4, e5, e6, e7, e8, e9, e10, e11⟩ := hmt
    simp [flowisentropic, broadcast, hg.not_le, e1, e2, e3, e4, e5, e6, e7, e8, e9, e10, e11]
  · intro gam fl mt hg hmt
    simp only [List.mem_cons, List.not_mem_nil, or_false, not_or] at hmt
    obtain ⟨e1, e2, e3, e4, e5, e6, e7, e8, e9, e10, e11, e12⟩ := hmt
    simp [flownormalshock, broadcast, hg.not_le, e1, e2, e3, e4, e5, e6, e7, e8, e9, e10,
      e11, e12]
  · intro h mt T0 P0 h1 h2
    simp [atmosisa, h1, h2]

/-- Witness for C8: each error kind triggered at a concrete invalid
input. -/
theorem error_handling_witness :
    flowisentropic [0.5] [2] "mach" = .error msgGamma ∧
    flownormalshock [0.5] [2] "mach" = .error msgGamma ∧
    flowisentropic [1.4, 1.4] [1, 2, 3] "mach" = .error msgShape ∧
    flownormalshock [1.4, 1.4] [1, 2, 3] "mach" = .error msgShape ∧
    flowisentropic [1.4] [-1] "mach" = .error msgMach ∧
    flowisentropic [1.4] [2] "temp" = .error msgTemp ∧
    flowisentropic [1.4] [2] "pres" = .error msgPres ∧
    flowisentropic [1.4] [2] "dens" = .error msgDens ∧
    flowisentropic [1.4] [0.5] "sub" = .error msgArea ∧
    flowisentropic [1.4] [0.5] "sup" = .error msgArea ∧
    flownormalshock [1.4] [0.5] "mach" = .error msgShockMach ∧
    flownormalshock [1.4] [2] "down" = .error msgShockDown ∧
    flownormalshock [1.4] [0.5] "pres" = .error msgShockPres ∧
    flownormalshock [1.4] [7] "dens" = .error msgShockDens ∧
    flowisentropic [1.4] [1] "bogus" = .error msgMode ∧
    flownormalshock [1.4] [2] "bogus" = .error msgMode ∧
    atmosisa [0] "bogus" 288.15 101325 = .error msgMode := by
  have h := error_handling
  have hgs : ∀ g ∈ ([1.4, 1.4] : List ℝ), (1:ℝ) < g := by
    intro g hgm
    rcases List.mem_cons.mp hgm with h | h
    · rw [h]; norm_num
    · rw [List.mem_singleton.mp h]; norm_num
  refine ⟨(h.1 0.5 2 "mach" (by norm_num)).1, (h.1 0.5 2 "mach" (by norm_num)).2,
    (h.2.1 [1.4, 1.4] [1, 2, 3] "mach" hgs (by norm_num) (by norm_num) (by norm_num)).1,
    (h.2.1 [1.4, 1.4] [1, 2, 3] "mach" hgs (by norm_num) (by norm_num) (by norm_num)).2,
    (h.2.2.1 1.4 (-1) (by norm_num)).1 (by norm_num),
    (h.2.2.1 1.4 2 (by norm_num)).2.1 (Or.inr (by norm_num)),
    (h.2.2.1 1.4 2 (by norm_num)).2.2.1 (Or.inr (by norm_num)),
    (h.2.2.1 1.4 2 (by norm_num)).2.2.2.1 (Or.inr (by norm_num)),
    (h.2.2.1 1.4 0.5 (by norm_num)).2.2.2.2.1 (by norm_num),
    (h.2.2.1 1.4 0.5 (by norm_num)).2.2.2.2.2.1 (by norm_num),
    (h.2.2.1 1.4 0.5 (by norm_num)).2.2.2.2.2.2.1 (by norm_num),
    (h.2.2.1 1.4 2 (by norm_num)).2.2.2.2.2.2.2.1 (Or.inr (by norm_num)),
    (h.2.2.1 1.4 0.5 (by norm_num)).2.2.2.2.2.2.2.2.1 (by norm_num),
    (h.2.2.1 1.4 7 (by norm_num)).2.2.2.2.2.2.2.2.2 (Or.inr (by norm_num)),
    h.2.2.2.1 1.4 1 "bogus" (by norm_num) (by decide),
    h.2.2.2.2.1 1.4 2 "bogus" (by norm_num) (by decide),
    h.2.2.2.2.2.1 [0] "bogus" 288.15 101325 (by decide) (by decide)⟩

theorem atmosisa_geop_eval (h T0 P0 : ℝ) :
    atmosisa [h] "geop" T0 P0 =
      .ok ([(atmosWalk T0 P0 (EF.fin h) 7 0 (EF.fin T0, EF.fin P0)).1],
        [EF.sqrt (EF.mul (EF.fin (1.4 * Rgas))
          (atmosWalk T0 P0 (EF.fin h) 7 0 (EF.fin T0, EF.fin P0)).1)],
        [(atmosWalk T0 P0 (EF.fin h) 7 0 (EF.fin T0, EF.fin P0)).2],
        [EF.div (atmosWalk T0 P0 (EF.fin h) 7 0 (EF.fin T0, EF.fin P0)).2
          (EF.mul (EF.fin Rgas) (atmosWalk T0 P0 (EF.fin h) 7 0 (EF.fin T0, EF.fin P0)).1)]) := by
  simp [atmosisa]

theorem atmosWalk_sel {T0 P0 : ℝ} {rem i : ℕ} {cur : EF × EF} {h : EF}
    (hsel : EF.lt (layerBound i) h) :
    atmosWalk T0 P0 h (rem + 1) i cur =
      atmosWalk T0 P0 h rem (i + 1) (efLayerT T0 i h, efLayerP T0 P0 i h) := by
  simp [atmosWalk, hsel]

theorem atmosWalk_stop {T0 P0 : ℝ} {rem i : ℕ} {cur : EF × EF} {h : EF}
    (hstop : ¬ EF.lt (layerBound i) h) :
    atmosWalk T0 P0 h (rem + 1) i cur = cur := by
  simp [atmosWalk, hstop]

theorem atmosWalk_zero {T0 P0 : ℝ} {i : ℕ} {cur : EF × EF} {h : EF} :
    atmosWalk T0 P0 h 0 i cur = cur := rfl

theorem efLayerT_fin (T0 : ℝ) (i : ℕ) (h : ℝ) :
    efLayerT T0 i (EF.fin h) = EF.fin (layerT T0 i h) := by
  by_cases hL : LrV i = 0 <;> simp [efLayerT, layerT, hL]

theorem efLayerP_fin (T0 P0 : ℝ) (i : ℕ) (h : ℝ) (hTb : 0 < baseT T0 i)
    (hlT : 0 < layerT T0 i h) :
    efLayerP T0 P0 i (EF.fin h) = EF.fin (layerP T0 P0 i h) := by
  by_cases hL : LrV i = 0
  · simp [efLayerP, layerP, hL]
  · rw [efLayerP, layerP, if_neg hL, if_neg hL, efLayerT_fin,
      EF.div_fin_fin hTb.ne', EF.rpow_fin_pos (div_pos hlT hTb), EF.mul_fin]

theorem base_advance (T0 P0 : ℝ) (i : ℕ) :
    baseT T0 (i + 1) = layerT T0 i (HbV (i + 1)) ∧
    baseP T0 P0 (i + 1) = layerP T0 P0 i (HbV (i + 1)) := by
  by_cases hL : LrV i = 0 <;> simp [baseT, baseP, layerT, layerP, hL]

theorem layer_at_base_T (T0 : ℝ) (i : ℕ) : layerT T0 i (HbV i) = baseT T0 i := by
  by_cases hL : LrV i = 0 <;> simp [layerT, hL]

theorem layer_at_base_P (T0 P0 : ℝ) (i : ℕ) (hTb : baseT T0 i ≠ 0) :
    layerP T0 P0 i (HbV i) = baseP T0 P0 i := by
  by_cases hL : LrV i = 0
  · simp [layerP, hL]
  · rw [layerP, if_neg hL, layer_at_base_T, div_self hTb, Real.one_rpow, mul_one]

/-- C6: after processing each layer, the running base pair `(Tb, Pb)`
equals that layer's formulas at the next base altitude; consequently at
every interior layer boundary the temperature and pressure from the
layer below and from the layer above agree exactly, and the full
`atmosisa` evaluation at the boundary returns exactly those values. -/
theorem atmos_layer_continuity (T0 P0 : ℝ) (hT : ∀ j, j ≤ 6 → 0 < baseT T0 j) :
    (∀ i, baseT T0 (i + 1) = layerT T0 i (HbV (i + 1)) ∧
      baseP T0 P0 (i + 1) = layerP T0 P0 i (HbV (i + 1))) ∧
    (∀ i, i ≤ 5 →
      layerT T0 (i + 1) (HbV (i + 1)) = baseT T0 (i + 1) ∧
      layerP T0 P0 (i + 1) (HbV (i + 1)) = baseP T0 P0 (i + 1) ∧
      layerT T0 i (HbV (i + 1)) = baseT T0 (i + 1) ∧
      layerP T0 P0 i (HbV (i + 1)) = baseP T0 P0 (i + 1) ∧
      ∃ aa ra, atmosisa [HbV (i + 1)] "geop" T0 P0 =
        .ok ([EF.fin (baseT T0 (i + 1))], aa, [EF.fin (baseP T0 P0 (i + 1))], ra)) := by
  refine ⟨fun i => base_advance T0 P0 i, ?_⟩
  intro i hi
  have hTb : 0 < baseT T0 i := hT i (by omega)
  have hlT : 0 < layerT T0 i (HbV (i + 1)) := by
    rw [← (base_advance T0 P0 i).1]
    exact hT (i + 1) (by omega)
  have h3 : layerT T0 i (HbV (i + 1)) = baseT T0 (i + 1) := (base_advance T0 P0 i).1.symm
  have h4 : layerP T0 P0 i (HbV (i + 1)) = baseP T0 P0 (i + 1) := (base_advance T0 P0 i).2.symm
  refine ⟨layer_at_base_T T0 (i + 1),
    layer_at_base_P T0 P0 (i + 1) (hT (i + 1) (by omega)).ne', h3, h4, ?_⟩
  have hwalk : atmosWalk T0 P0 (EF.fin (HbV (i + 1))) 7 0 (EF.fin T0, EF.fin P0) =
      (EF.fin (baseT T0 (i + 1)), EF.fin (baseP T0 P0 (i + 1))) := by
    interval_cases i
    · rw [atmosWalk_sel (by norm_num [layerBound, HbV]),
        atmosWalk_stop (by norm_num [layerBound, HbV]),
        efLayerT_fin, efLayerP_fin T0 P0 _ _ hTb hlT, h3, h4]
    · rw [atmosWalk_sel (by norm_num [layerBound, HbV]),
        atmosWalk_sel (by norm_num [layerBound, HbV]),
        atmosWalk_stop (by norm_num [layerBound, HbV]),
        efLayerT_fin, efLayerP_fin T0 P0 _ _ hTb hlT, h3, h4]
    · rw [atmosWalk_sel (by norm_num [layerBound, HbV]),
        atmosWalk_sel (by norm_num [layerBound, HbV]),
        atmosWalk_sel (by norm_num [layerBound, HbV]),
        atmosWalk_stop (by norm_num [layerBound, HbV]),
        efLayerT_fin, efLayerP_fin T0 P0 _ _ hTb hlT, h3, h4]
    · rw [atmosWalk_sel (by norm_num [layerBound, HbV]),
        atmosWalk_sel (by norm_num [layerBound, HbV]),
        atmosWalk_sel (by norm_num [layerBound, HbV]),
        atmosWalk_sel (by norm_num [layerBound, HbV]),
        atmosWalk_stop (by norm_num [layerBound, HbV]),
        efLayerT_fin, efLayerP_fin T0 P0 _ _ hTb hlT, h3, h4]
    · rw [atmosWalk_sel (by norm_num [layerBound, HbV]),
        atmosWalk_sel (by norm_num [layerBound, HbV]),
        atmosWalk_sel (by norm_num [layerBound, HbV]),
        atmosWalk_sel (by norm_num [layerBound, HbV]),
        atmosWalk_sel (by norm_num [layerBound, HbV]),
        atmosWalk_stop (by norm_num [layerBound, HbV]),
        efLayerT_fin, efLayerP_fin T0 P0 _ _ hTb hlT, h3, h4]
    · rw [atmosWalk_sel (by norm_num [layerBound, HbV]),
        atmosWalk_sel (by norm_num [layerBound, HbV]),
        atmosWalk_sel (by norm_num [layerBound, HbV]),
        atmosWalk_sel (by norm_num [layerBound, HbV]),
        atmosWalk_sel (by norm_num [layerBound, HbV]),
        atmosWalk_sel (by norm_num [layerBound, HbV]),
        atmosWalk_stop (by norm_num [layerBound, HbV]),
        efLayerT_fin, efLayerP_fin T0 P0 _ _ hTb hlT, h3, h4]
  rw [atmosisa_geop_eval, hwalk]
  exact ⟨_, _, rfl⟩

theorem atmos_layer_continuity_witness :
    (∀ j, j ≤ 6 → 0 < baseT 288.15 j) ∧
    (∃ aa ra, atmosisa [HbV 1] "geop" 288.15 101325 =
      .ok ([EF.fin (baseT 288.15 1)], aa, [EF.fin (baseP 288.15 101325 1)], ra)) := by
  have hT : ∀ j, j ≤ 6 → 0 < baseT 288.15 j := by
    intro j hj
    interval_cases j <;> norm_num [baseT, HbV, LrV]
  exact ⟨hT, ((atmos_layer_continuity 288.15 101325 hT).2 0 (by norm_num)).2.2.2.2⟩

theorem atmos_above_71k (T0 P0 h : ℝ) (hh : 71000 < h) :
    ∃ aa Pv ra, atmosisa [h] "geop" T0 P0 =
      .ok ([EF.fin (layerT T0 6 h)], aa, Pv, ra) := by
  have hw : atmosWalk T0 P0 (EF.fin h) 7 0 (EF.fin T0, EF.fin P0) =
      (efLayerT T0 6 (EF.fin h), efLayerP T0 P0 6 (EF.fin h)) := by
    rw [atmosWalk_sel (by simp [layerBound]),
      atmosWalk_sel (by simp [layerBound, HbV]; linarith),
      atmosWalk_sel (by simp [layerBound, HbV]; linarith),
      atmosWalk_sel (by simp [layerBound, HbV]; linarith),
      atmosWalk_sel (by simp [layerBound, HbV]; linarith),
      atmosWalk_sel (by simp [layerBound, HbV]; linarith),
      atmosWalk_sel (by simp [layerBound, HbV]; linarith),
      atmosWalk_zero]
  rw [atmosisa_geop_eval, hw, efLayerT_fin]
  exact ⟨_, _, _, rfl⟩

/-- C7 (amended): above the last tabulated base altitude the *lapse-rate*
mesosphere layer (base 71 km, lapse -2 K/km) extends to infinity: for
every geopotential altitude `h > 84852` the returned temperature is the
linear extension `Tb6 + Lr6*(h - 71000)`, which keeps decreasing with
altitude rather than staying constant. -/
theorem atmos_above_last (T0 P0 h : ℝ) (hh : 84852 < h) :
    ∃ aa Pv ra, atmosisa [h] "geop" T0 P0 =
      .ok ([EF.fin (baseT T0 6 + LrV 6 * (h - HbV 6))], aa, Pv, ra) := by
  have h6 : layerT T0 6 h = baseT T0 6 + LrV 6 * (h - HbV 6) := by
    rw [layerT, if_neg (by norm_num [LrV])]
  rw [← h6]
  exact atmos_above_71k T0 P0 h (by linarith)

/-- Witness for the amended C7 at `h = 90000` with default base
conditions: the returned temperature is `176.65 K`. -/
theorem atmos_above_last_witness :
    (84852:ℝ) < 90000 ∧
    ∃ aa Pv ra, atmosisa [90000] "geop" 288.15 101325 =
      .ok ([EF.fin (baseT 288.15 6 + LrV 6 * (90000 - HbV 6))], aa, Pv, ra) :=
  ⟨by norm_num, atmos_above_last 288.15 101325 90000 (by norm_num)⟩

/-- C7 counterexample: with default base conditions the temperature at
geopotential `100000 m` is `156.65 K` while the temperature at the
`84852 m` boundary is `186.946 K`; the temperature above the last
tabulated base altitude is not constant. -/
theorem atmos_above_last_cx :
    (∃ aa Pv ra, atmosisa [100000] "geop" 288.15 101325 =
      .ok ([EF.fin 156.65], aa, Pv, ra)) ∧
    (∃ aa Pv ra, atmosisa [84852] "geop" 288.15 101325 =
      .ok ([EF.fin 186.946], aa, Pv, ra)) ∧
    (156.65 : ℝ) ≠ 186.946 := by
  have e1 : layerT 288.15 6 100000 = 156.65 := by
    norm_num [layerT, baseT, HbV, LrV]
  have e2 : layerT 288.15 6 84852 = 186.946 := by
    norm_num [layerT, baseT, HbV, LrV]
  refine ⟨?_, ?_, by norm_num⟩
  · have h := atmos_above_71k 288.15 101325 100000 (by norm_num)
    rwa [e1] at h
  · have h := atmos_above_71k 288.15 101325 84852 (by norm_num)
    rwa [e2] at h

theorem atmos_conv_neg_radius :
    EF.mul (EF.fin (-6356766)) (EF.div (EF.fin Rearth)
      (EF.add (EF.fin Rearth) (EF.fin (-6356766)))) = EF.ninf := by
  have h0 : Rearth + (-6356766) = 0 := by norm_num [Rearth]
  rw [EF.add_fin, h0, EF.div_fin_zero_pos (by norm_num [Rearth]),
    EF.mul_fin_pinf_neg (by norm_num)]

/-- C10 (amended): `atmosisa` converts the geometric altitude
`h = -6356766` (exactly `-Re`) with the unguarded division
`h * Re/(Re+h)`, producing a `-inf` geopotential altitude that no
validation rejects; the `-inf` altitude is selected by no layer
(`-inf > -inf` is false), so the call returns the unmodified base
values `(T0, P0)` and their finite derived outputs instead of raising
an error (and instead of returning non-finite values). -/
theorem atmos_neg_radius (T0 P0 : ℝ) :
    atmosisa [-6356766] "geom" T0 P0 =
      .ok ([EF.fin T0], [EF.sqrt (EF.mul (EF.fin (1.4 * Rgas)) (EF.fin T0))],
        [EF.fin P0], [EF.div (EF.fin P0) (EF.mul (EF.fin Rgas) (EF.fin T0))]) := by
  have hwalk : atmosWalk T0 P0 EF.ninf 7 0 (EF.fin T0, EF.fin P0) = (EF.fin T0, EF.fin P0) :=
    atmosWalk_stop (by simp [layerBound])
  simp only [atmosisa, if_pos (by decide : ("geom" = "geop" ∨ "geom" = "geom")),
    if_neg (by decide : ¬ ("geom" = "geop")), List.map_cons, List.map_nil,
    atmos_conv_neg_radius, hwalk]
  simp

/-- C10 counterexample: at the default base conditions the call
`atmosisa(-6356766.0, 'geom')` returns four *finite* values
(sea-level `T0 = 288.15`, `P0 = 101325` and their derived outputs); it
does not return non-finite values and does not raise. -/
theorem atmos_neg_radius_cx :
    atmosisa [-6356766] "geom" 288.15 101325 =
      .ok ([EF.fin 288.15], [EF.fin (Real.sqrt (1.4 * Rgas * 288.15))],
        [EF.fin 101325], [EF.fin (101325 / (Rgas * 288.15))]) := by
  have hwalk : atmosWalk 288.15 101325 EF.ninf 7 0 (EF.fin 288.15, EF.fin 101325) =
      (EF.fin 288.15, EF.fin 101325) := atmosWalk_stop (by simp [layerBound])
  simp only [atmosisa, if_pos (by decide : ("geom" = "geop" ∨ "geom" = "geom")),
    if_neg (by decide : ¬ ("geom" = "geop")), List.map_cons, List.map_nil,
    atmos_conv_neg_radius, hwalk]
  rw [EF.mul_fin, EF.mul_fin, EF.sqrt_fin (by norm_num [Rgas]),
    EF.div_fin_fin (by norm_num [Rgas])]
  simp

theorem newtonStep_gamma14 (fl M : ℝ) (hM : M ≠ 0) (hM1 : M ^ 2 ≠ 1) :
    newtonStep 1.4 fl M =
      M - (M * ((5 + M ^ 2) ^ 3 - 216 * M * fl)) / (5 * (5 + M ^ 2) ^ 2 * (M ^ 2 - 1)) := by
  unfold newtonStep
  have e1 : ((1.4 + 1 : ℝ) / 2) ^ (-((1.4 + 1 : ℝ) / 2 / (1.4 - 1))) = 125 / 216 := by
    rw [show (-((1.4 + 1 : ℝ) / 2 / (1.4 - 1))) = ((-3 : ℤ) : ℝ) by norm_num,
      Real.rpow_intCast]
    norm_num
  have e2 : ∀ x : ℝ, x ^ ((1.4 + 1 : ℝ) / 2 / (1.4 - 1)) = x ^ (3 : ℕ) := fun x => by
    rw [show ((1.4 + 1 : ℝ) / 2 / (1.4 - 1)) = ((3 : ℕ) : ℝ) by norm_num,
      Real.rpow_natCast]
  have e3 : ∀ x : ℝ, x ^ ((1.4 + 1 : ℝ) / 2 / (1.4 - 1) - 1) = x ^ (2 : ℕ) := fun x => by
    rw [show ((1.4 + 1 : ℝ) / 2 / (1.4 - 1) - 1) = ((2 : ℕ) : ℝ) by norm_num,
      Real.rpow_natCast]
  simp only []
  rw [e1, e2, e3]
  have hfac : ((1.4 - 1) / 2 * (2 * ((1.4 + 1) / 2 / (1.4 - 1)) - 1) : ℝ) = 1 := by norm_num
  rw [hfac, one_mul]
  have hd : (1 + (1.4 - 1) / 2 * M ^ 2 : ℝ) ≠ 0 := by positivity
  have h5 : (5 + M ^ 2 : ℝ) ≠ 0 := by positivity
  have hM1' : (M ^ 2 - 1 : ℝ) ≠ 0 := sub_ne_zero.mpr hM1
  field_simp
  ring

theorem newtonStep_sonic_bounds (M : ℝ) (h0 : 0 < M) (h1 : M < 1) :
    M < newtonStep 1.4 1 M ∧ newtonStep 1.4 1 M < 1 := by
  have hM : M ≠ 0 := h0.ne'
  have hM2 : M ^ 2 ≠ 1 := by nlinarith
  have h5 : (5 + M ^ 2 : ℝ) ≠ 0 := by positivity
  have hM1' : (M ^ 2 - 1 : ℝ) ≠ 0 := sub_ne_zero.mpr hM2
  have hid1 : newtonStep 1.4 1 M - M =
      M * ((M - 1) ^ 2 * (M ^ 4 + 2 * M ^ 3 + 18 * M ^ 2 + 34 * M + 125)) /
        (5 * (5 + M ^ 2) ^ 2 * (1 - M ^ 2)) := by
    rw [newtonStep_gamma14 1 M hM hM2]
    have hM1'' : (1 - M ^ 2 : ℝ) ≠ 0 := sub_ne_zero.mpr (Ne.symm hM2)
    field_simp
    ring
  have hid2 : newtonStep 1.4 1 M - 1 =
      (M - 1) * (4 * M ^ 5 + 3 * M ^ 4 + 32 * M ^ 3 + 16 * M ^ 2 + 125) /
        (5 * (5 + M ^ 2) ^ 2 * (M + 1)) := by
    rw [newtonStep_gamma14 1 M hM hM2]
    have hMp1 : (M + 1 : ℝ) ≠ 0 := by positivity
    field_simp
    ring
  constructor
  · have hsq : (0:ℝ) < (M - 1) ^ 2 :=
      lt_of_le_of_ne (sq_nonneg _) (Ne.symm (pow_ne_zero 2 (sub_ne_zero.mpr h1.ne)))
    have hr : (0:ℝ) < M ^ 4 + 2 * M ^ 3 + 18 * M ^ 2 + 34 * M + 125 := by positivity
    have h1m : (0:ℝ) < 1 - M ^ 2 := by nlinarith
    have hden : (0:ℝ) < 5 * (5 + M ^ 2) ^ 2 * (1 - M ^ 2) :=
      mul_pos (by positivity) h1m
    have hpos : 0 < M * ((M - 1) ^ 2 * (M ^ 4 + 2 * M ^ 3 + 18 * M ^ 2 + 34 * M + 125)) /
        (5 * (5 + M ^ 2) ^ 2 * (1 - M ^ 2)) :=
      div_pos (mul_pos h0 (mul_pos hsq hr)) hden
    linarith [hid1, hpos]
  · have hs : (0:ℝ) < 4 * M ^ 5 + 3 * M ^ 4 + 32 * M ^ 3 + 16 * M ^ 2 + 125 := by positivity
    have hden : (0:ℝ) < 5 * (5 + M ^ 2) ^ 2 * (M + 1) := by positivity
    have hneg : (M - 1) * (4 * M ^ 5 + 3 * M ^ 4 + 32 * M ^ 3 + 16 * M ^ 2 + 125) /
        (5 * (5 + M ^ 2) ^ 2 * (M + 1)) < 0 :=
      div_neg_of_neg_of_pos (mul_neg_of_neg_of_pos (by linarith) hs) hden
    linarith [hid2, hneg]

theorem newtonIter_sonic_bounds :
    ∀ (n : ℕ) (M : ℝ), 0 < M → M < 1 →
      0 < newtonIter 1.4 1 n M ∧ newtonIter 1.4 1 n M < 1 := by
  intro n
  induction n with
  | zero => exact fun M h0 h1 => ⟨h0, h1⟩
  | succ n ih =>
    intro M h0 h1
    have hs := newtonStep_sonic_bounds M h0 h1
    exact ih (newtonStep 1.4 1 M) (lt_trans h0 hs.1) hs.2

/-- C2 (amended): for area-ratio inputs `flow > 1` the returned Mach
number is exactly the result of `_AETB_iternum = 10` Newton-Raphson
steps `M <- M - f(M)/g(M)` on the mach-area residual, from the initial
guess `0.2` ('sub') or `1.8` ('sup'), with no early exit and no
divergence detection; at `flow = 1` the Newton result is overridden to
exactly 1 after the loop. -/
theorem isen_newton_iterations (gam fl : ℝ) (hg : 1 < gam) (hf : 1 < fl) :
    AETBiternum = 10 ∧
    (∃ out, flowisentropic [gam] [fl] "sub" = .ok out ∧
      out.M = [EF.fin (newtonIter gam fl 10 0.2)]) ∧
    (∃ out, flowisentropic [gam] [fl] "sup" = .ok out ∧
      out.M = [EF.fin (newtonIter gam fl 10 1.8)]) := by
  refine ⟨rfl, ⟨_, isen_sub_eval gam fl hg hf.le, ?_⟩,
    ⟨_, isen_sup_eval gam fl hg hf.le, ?_⟩⟩ <;>
  simp [isenOut, hf.ne', AETBiternum]

/-- Witness for the amended C2 at `gamma = 1.4`, `flow = 2`. -/
theorem isen_newton_iterations_witness :
    (1:ℝ) < 1.4 ∧ (1:ℝ) < 2 ∧
    (AETBiternum = 10 ∧
    (∃ out, flowisentropic [1.4] [2] "sub" = .ok out ∧
      out.M = [EF.fin (newtonIter 1.4 2 10 0.2)]) ∧
    (∃ out, flowisentropic [1.4] [2] "sup" = .ok out ∧
      out.M = [EF.fin (newtonIter 1.4 2 10 1.8)])) :=
  ⟨by norm_num, by norm_num, isen_newton_iterations 1.4 2 (by norm_num) (by norm_num)⟩

/-- C2 counterexample: at `gamma = 1.4`, `flow = 1` (which is in the
claimed range `flow >= 1`) the call returns `M = 1` exactly, but the
result of the 10 Newton-Raphson iterations from `0.2` is strictly below
1, so the returned Mach number is *not* the iteration result: the
`M[flow == 1] = 1` override changes the value. -/
theorem isen_newton_sonic_cx :
    ∃ out, flowisentropic [1.4] [1] "sub" = .ok out ∧ out.M = [EF.fin 1] ∧
      newtonIter 1.4 1 AETBiternum 0.2 ≠ 1 ∧
      out.M ≠ [EF.fin (newtonIter 1.4 1 AETBiternum 0.2)] := by
  have hlt : newtonIter 1.4 1 10 0.2 < 1 :=
    (newtonIter_sonic_bounds 10 0.2 (by norm_num) (by norm_num)).2
  refine ⟨_, isen_sub_eval 1.4 1 (by norm_num) le_rfl, by simp [isenOut], ?_, ?_⟩
  · show newtonIter 1.4 1 AETBiternum 0.2 ≠ 1
    exact hlt.ne
  · simp only [isenOut, List.zipWith_cons_cons, List.zipWith_nil_right, if_pos rfl]
    simp [AETBiternum]
    exact hlt.ne'

theorem rpow_neg_one_eq (x : ℝ) : x ^ (-1 : ℝ) = x⁻¹ := by
  rw [show (-1 : ℝ) = ((-1 : ℤ) : ℝ) by norm_num, Real.rpow_intCast, zpow_neg_one]

theorem isen_rt_temp (gam M : ℝ) (hg : 1 < gam) (hM : 0 ≤ M) :
    ∃ t out1 out2, flowisentropic [gam] [M] "mach" = .ok out1 ∧ out1.T = [EF.fin t] ∧
      flowisentropic [gam] [t] "temp" = .ok out2 ∧ out2.M = [EF.fin M] := by
  have hb : (0:ℝ) < (gam - 1) / 2 := by linarith
  have hd1 : (1:ℝ) ≤ 1 + (gam - 1) / 2 * (M * M) := by nlinarith [mul_self_nonneg M]
  have hd0 : (0:ℝ) < 1 + (gam - 1) / 2 * (M * M) := by linarith
  set d : ℝ := 1 + (gam - 1) / 2 * (M * M) with hdd
  set t : ℝ := d ^ (-1 : ℝ) with htt
  have htinv : t = d⁻¹ := by rw [htt, rpow_neg_one_eq]
  have ht0 : 0 < t := by rw [htinv]; exact inv_pos.mpr hd0
  have ht1 : t ≤ 1 := by
    rw [htinv]
    exact inv_le_one_of_one_le₀ hd1
  refine ⟨t, _, _, isen_mach_eval gam M hg hM, ?_, isen_temp_eval gam t hg ht0.le ht1, ?_⟩
  · rw [isenOut_singleton, isenFwd_fin gam M hg]
  · rw [isenOut_singleton]
    have harg : 1 / ((gam - 1) / 2) * (t ^ (-1 : ℝ) - 1) = M * M := by
      have hg1 : gam - 1 ≠ 0 := by linarith
      rw [htt, ← Real.rpow_mul hd0.le]
      norm_num
      rw [hdd]
      field_simp
      ring
    rw [if_neg ht0.ne', harg]
    have : Real.sqrt (M * M) = M := by
      rw [show M * M = M ^ 2 by ring, Real.sqrt_sq hM]
    rw [this]

theorem isen_rt_pres (gam M : ℝ) (hg : 1 < gam) (hM : 0 ≤ M) :
    ∃ p out1 out2, flowisentropic [gam] [M] "mach" = .ok out1 ∧ out1.P = [EF.fin p] ∧
      flowisentropic [gam] [p] "pres" = .ok out2 ∧ out2.M = [EF.fin M] := by
  have hb : (0:ℝ) < (gam - 1) / 2 := by linarith
  have hg0 : gam ≠ 0 := by linarith
  have hg1 : gam - 1 ≠ 0 := by linarith
  have hd1 : (1:ℝ) ≤ 1 + (gam - 1) / 2 * (M * M) := by nlinarith [mul_self_nonneg M]
  have hd0 : (0:ℝ) < 1 + (gam - 1) / 2 * (M * M) := by linarith
  set d : ℝ := 1 + (gam - 1) / 2 * (M * M) with hdd
  set p : ℝ := d ^ (-gam / (gam - 1)) with hpp
  have hp0 : 0 < p := Real.rpow_pos_of_pos hd0 _
  have hp1 : p ≤ 1 :=
    Real.rpow_le_one_of_one_le_of_nonpos hd1
      (by rw [neg_div]; exact neg_nonpos.mpr (div_nonneg (by linarith) (by linarith)))
  refine ⟨p, _, _, isen_mach_eval gam M hg hM, ?_, isen_pres_eval gam p hg hp0.le hp1, ?_⟩
  · rw [isenOut_singleton, isenFwd_fin gam M hg]
  · rw [isenOut_singleton]
    have harg : 1 / ((gam - 1) / 2) * (p ^ ((gam - 1) / -gam) - 1) = M * M := by
      rw [hpp, ← Real.rpow_mul hd0.le]
      have he : -gam / (gam - 1) * ((gam - 1) / -gam) = 1 := by
        rw [div_mul_div_comm, div_eq_one_iff_eq (mul_ne_zero hg1 (neg_ne_zero.mpr hg0))]
        ring
      rw [he, Real.rpow_one, hdd]
      field_simp
      ring
    rw [if_neg hp0.ne', harg]
    rw [show M * M = M ^ 2 by ring, Real.sqrt_sq hM]

theorem isen_rt_dens (gam M : ℝ) (hg : 1 < gam) (hM : 0 ≤ M) :
    ∃ r out1 out2, flowisentropic [gam] [M] "mach" = .ok out1 ∧ out1.rho = [EF.fin r] ∧
      flowisentropic [gam] [r] "dens" = .ok out2 ∧ out2.M = [EF.fin M] := by
  have hb : (0:ℝ) < (gam - 1) / 2 := by linarith
  have hg1 : gam - 1 ≠ 0 := by linarith
  have hd1 : (1:ℝ) ≤ 1 + (gam - 1) / 2 * (M * M) := by nlinarith [mul_self_nonneg M]
  have hd0 : (0:ℝ) < 1 + (gam - 1) / 2 * (M * M) := by linarith
  set d : ℝ := 1 + (gam - 1) / 2 * (M * M) with hdd
  set r : ℝ := d ^ (-1 / (gam - 1)) with hrr
  have hr0 : 0 < r := Real.rpow_pos_of_pos hd0 _
  have hr1 : r ≤ 1 :=
    Real.rpow_le_one_of_one_le_of_nonpos hd1
      (div_nonpos_of_nonpos_of_nonneg (by norm_num) (by linarith))
  refine ⟨r, _, _, isen_mach_eval gam M hg hM, ?_, isen_dens_eval gam r hg hr0.le hr1, ?_⟩
  · rw [isenOut_singleton, isenFwd_fin gam M hg]
  · rw [isenOut_singleton]
    have harg : 1 / ((gam - 1) / 2) * (r ^ ((gam - 1) / (-1 : ℝ)) - 1) = M * M := by
      rw [hrr, ← Real.rpow_mul hd0.le]
      have he : -1 / (gam - 1) * ((gam - 1) / (-1 : ℝ)) = 1 := by
        rw [div_mul_div_comm, div_eq_one_iff_eq (mul_ne_zero hg1 (by norm_num))]
        ring
      rw [he, Real.rpow_one, hdd]
      field_simp
      ring
    rw [if_neg hr0.ne', harg]
    rw [show M * M = M ^ 2 by ring, Real.sqrt_sq hM]

theorem isen_rt_sonic (gam : ℝ) (hg : 1 < gam) :
    ∃ out1 out2 out3, flowisentropic [gam] [1] "mach" = .ok out1 ∧
      out1.area = [EF.fin 1] ∧
      flowisentropic [gam] [1] "sub" = .ok out2 ∧ out2.M = [EF.fin 1] ∧
      flowisentropic [gam] [1] "sup" = .ok out3 ∧ out3.M = [EF.fin 1] := by
  have ha : (0:ℝ) < (gam + 1) / 2 := by linarith
  refine ⟨_, _, _, isen_mach_eval gam 1 hg (by norm_num), ?_,
    isen_sub_eval gam 1 hg le_rfl, by simp [isenOut],
    isen_sup_eval gam 1 hg le_rfl, by simp [isenOut]⟩
  rw [isenOut_singleton, isenFwd_fin gam 1 hg]
  have hbase : 1 + (gam - 1) / 2 * (1 * 1) = (gam + 1) / 2 := by ring
  have hval : ((gam + 1) / 2) ^ (-((gam + 1) / 2 / (gam - 1))) *
      (1 + (gam - 1) / 2 * (1 * 1)) ^ ((gam + 1) / 2 / (gam - 1)) / 1 = 1 := by
    rw [hbase, div_one, Real.rpow_neg ha.le,
      inv_mul_cancel₀ (Real.rpow_pos_of_pos ha _).ne']
  simp only [hval]
  simp

theorem shock_rt_mach (gam M : ℝ) (hg : 1 < gam) (hM : 1 ≤ M) :
    ∃ out, flownormalshock [gam] [M] "mach" = .ok out ∧ out.M = [EF.fin M] := by
  exact ⟨_, shock_mach_eval gam M hg hM, by simp [shockOut]⟩

theorem shock_rt_down (gam M : ℝ) (hg : 1 < gam) (hM : 1 ≤ M) :
    ∃ m2 out1 out2, flownormalshock [gam] [M] "mach" = .ok out1 ∧
      out1.M2 = [EF.fin m2] ∧
      flownormalshock [gam] [m2] "down" = .ok out2 ∧ out2.M = [EF.fin M] := by
  have hM0 : (0:ℝ) < M := lt_of_lt_of_le one_pos hM
  have hK1 : (1:ℝ) ≤ M * M := by nlinarith
  have hden : (0:ℝ) < gam * (M * M) - (gam - 1) / 2 := by nlinarith
  set X : ℝ := (1 + (gam - 1) / 2 * (M * M)) / (gam * (M * M) - (gam - 1) / 2) with hX
  have hX0 : 0 < X := div_pos (by nlinarith) hden
  have hX1 : X ≤ 1 := by
    rw [hX, div_le_one hden]
    nlinarith
  have hXmul : X * (gam * (M * M) - (gam - 1) / 2) = 1 + (gam - 1) / 2 * (M * M) :=
    div_mul_cancel₀ _ hden.ne'
  have hlbX : (gam - 1) / (2 * gam) < X := by
    rw [hX, div_lt_div_iff₀ (by linarith) hden]
    nlinarith [sq_nonneg (gam - 1)]
  have hm2le1 : Real.sqrt X ≤ 1 := by
    calc Real.sqrt X ≤ Real.sqrt 1 := Real.sqrt_le_sqrt hX1
      _ = 1 := Real.sqrt_one
  have hlbm2 : Real.sqrt ((gam - 1) / (2 * gam)) < Real.sqrt X :=
    Real.sqrt_lt_sqrt (div_nonneg (by linarith) (by linarith)) hlbX
  refine ⟨Real.sqrt X, _, _, shock_mach_eval gam M hg hM, ?_,
    shock_down_eval gam (Real.sqrt X) hg hlbm2.le hm2le1, ?_⟩
  · rw [shockOut_singleton, shockFwd_fin gam M hg hM]
  · rw [shockOut_singleton]
    rw [if_neg (not_le.mpr hlbm2)]
    have hsq : Real.sqrt X ^ 2 = X := Real.sq_sqrt hX0.le
    have hgb : (0:ℝ) < gam + ((gam - 1) / 2) ^ 2 := by positivity
    have h2 : (gam * X - (gam - 1) / 2) * (gam * (M * M) - (gam - 1) / 2) =
        gam + ((gam - 1) / 2) ^ 2 := by
      linear_combination gam * hXmul
    have hXden : 0 < gam * X - (gam - 1) / 2 := by
      by_contra hcon
      push_neg at hcon
      have : (gam * X - (gam - 1) / 2) * (gam * (M * M) - (gam - 1) / 2) ≤ 0 :=
        mul_nonpos_of_nonpos_of_nonneg hcon hden.le
      rw [h2] at this
      linarith
    have harg : (1 + (gam - 1) / 2 * Real.sqrt X ^ 2) /
        (gam * Real.sqrt X ^ 2 - (gam - 1) / 2) = M * M := by
      rw [hsq, div_eq_iff hXden.ne']
      linear_combination (-1 : ℝ) * hXmul
    rw [harg, show M * M = M ^ 2 by ring, Real.sqrt_sq hM0.le]

theorem shock_rt_pres (gam M : ℝ) (hg : 1 < gam) (hM : 1 ≤ M) :
    ∃ p out1 out2, flownormalshock [gam] [M] "mach" = .ok out1 ∧
      out1.P = [EF.fin p] ∧
      flownormalshock [gam] [p] "pres" = .ok out2 ∧ out2.M = [EF.fin M] := by
  have hM0 : (0:ℝ) < M := lt_of_lt_of_le one_pos hM
  have hK1 : (1:ℝ) ≤ M * M := by nlinarith
  have ha : (0:ℝ) < (gam + 1) / 2 := by linarith
  set p : ℝ := 1 + (M * M - 1) * gam / ((gam + 1) / 2) with hp
  have hp1 : 1 ≤ p := by
    rw [hp]
    have : 0 ≤ (M * M - 1) * gam / ((gam + 1) / 2) :=
      div_nonneg (mul_nonneg (by linarith) (by linarith)) ha.le
    linarith
  refine ⟨p, _, _, shock_mach_eval gam M hg hM, ?_,
    shock_pres_eval gam p hg hp1, ?_⟩
  · rw [shockOut_singleton, shockFwd_fin gam M hg hM]
  · rw [shockOut_singleton]
    have harg : (p - 1) * (gam + 1) / (2 * gam) + 1 = M * M := by
      rw [hp]
      field_simp
      ring
    rw [harg, show M * M = M ^ 2 by ring, Real.sqrt_sq hM0.le]

theorem shock_rt_dens (gam M : ℝ) (hg : 1 < gam) (hM : 1 ≤ M) :
    ∃ r out1 out2, flownormalshock [gam] [M] "mach" = .ok out1 ∧
      out1.rho = [EF.fin r] ∧
      flownormalshock [gam] [r] "dens" = .ok out2 ∧ out2.M = [EF.fin M] := by
  have hM0 : (0:ℝ) < M := lt_of_lt_of_le one_pos hM
  have hK1 : (1:ℝ) ≤ M * M := by nlinarith
  have hD : (0:ℝ) < 2 + (gam - 1) * (M * M) := by nlinarith
  set r : ℝ := (gam + 1) * (M * M) / (2 + (gam - 1) * (M * M)) with hr
  have hrmul : r * (2 + (gam - 1) * (M * M)) = (gam + 1) * (M * M) :=
    div_mul_cancel₀ _ hD.ne'
  have hr1 : 1 ≤ r := by
    rw [hr, le_div_iff₀ hD]
    nlinarith
  have hrub : r < (gam + 1) / (gam - 1) := by
    rw [hr, div_lt_div_iff₀ hD (by linarith)]
    nlinarith
  refine ⟨r, _, _, shock_mach_eval gam M hg hM, ?_,
    shock_dens_eval gam r hg hr1 hrub.le, ?_⟩
  · rw [shockOut_singleton, shockFwd_fin gam M hg hM]
  · rw [shockOut_singleton]
    rw [if_neg (not_le.mpr hrub)]
    have hden2 : (1 + gam + r - r * gam) * (2 + (gam - 1) * (M * M)) = (1 + gam) * 2 := by
      linear_combination (1 - gam) * hrmul
    have hden2pos : 0 < 1 + gam + r - r * gam := by
      by_contra hcon
      push_neg at hcon
      have : (1 + gam + r - r * gam) * (2 + (gam - 1) * (M * M)) ≤ 0 :=
        mul_nonpos_of_nonpos_of_nonneg hcon hD.le
      rw [hden2] at this
      linarith
    have harg : 2 * r / (1 + gam + r - r * gam) = M * M := by
      rw [div_eq_iff hden2pos.ne']
      linear_combination hrmul
    rw [harg, show M * M = M ^ 2 by ring, Real.sqrt_sq hM0.le]

/-- C1 (amended): for every `gamma > 1` the inverse dispatchers recover
the Mach number *exactly* from the corresponding forward field for every
closed-form mode --- isentropic `mach` (M >= 0), `temp`, `pres`, `dens`,
and normal-shock `mach` (M >= 1), `down`, `pres`, `dens` --- and for the
Newton-based `sub`/`sup` modes at the sonic point `M = 1` (where the
forward area ratio is exactly 1 and the override returns exactly 1).
For `sub`/`sup` away from the sonic point the 10-step Newton iterate is
only an approximation and can fail to recover `M` for extreme area
ratios (see the counterexample). -/
theorem flow_round_trips (gam M Ms : ℝ) (hg : 1 < gam) (hM : 0 ≤ M) (hMs : 1 ≤ Ms) :
    (∃ out, flowisentropic [gam] [M] "mach" = .ok out ∧ out.M = [EF.fin M]) ∧
    (∃ t out1 out2, flowisentropic [gam] [M] "mach" = .ok out1 ∧ out1.T = [EF.fin t] ∧
      flowisentropic [gam] [t] "temp" = .ok out2 ∧ out2.M = [EF.fin M]) ∧
    (∃ p out1 out2, flowisentropic [gam] [M] "mach" = .ok out1 ∧ out1.P = [EF.fin p] ∧
      flowisentropic [gam] [p] "pres" = .ok out2 ∧ out2.M = [EF.fin M]) ∧
    (∃ r out1 out2, flowisentropic [gam] [M] "mach" = .ok out1 ∧ out1.rho = [EF.fin r] ∧
      flowisentropic [gam] [r] "dens" = .ok out2 ∧ out2.M = [EF.fin M]) ∧
    (∃ out1 out2 out3, flowisentropic [gam] [1] "mach" = .ok out1 ∧
      out1.area = [EF.fin 1] ∧
      flowisentropic [gam] [1] "sub" = .ok out2 ∧ out2.M = [EF.fin 1] ∧
      flowisentropic [gam] [1] "sup" = .ok out3 ∧ out3.M = [EF.fin 1]) ∧
    (∃ out, flownormalshock [gam] [Ms] "mach" = .ok out ∧ out.M = [EF.fin Ms]) ∧
    (∃ m2 out1 out2, flownormalshock [gam] [Ms] "mach" = .ok out1 ∧
      out1.M2 = [EF.fin m2] ∧
      flownormalshock [gam] [m2] "down" = .ok out2 ∧ out2.M = [EF.fin Ms]) ∧
    (∃ p out1 out2, flownormalshock [gam] [Ms] "mach" = .ok out1 ∧
      out1.P = [EF.fin p] ∧
      flownormalshock [gam] [p] "pres" = .ok out2 ∧ out2.M = [EF.fin Ms]) ∧
    (∃ r out1 out2, flownormalshock [gam] [Ms] "mach" = .ok out1 ∧
      out1.rho = [EF.fin r] ∧
      flownormalshock [gam] [r] "dens" = .ok out2 ∧ out2.M = [EF.fin Ms]) :=
  ⟨⟨_, isen_mach_eval gam M hg hM, by simp [isenOut]⟩,
   isen_rt_temp gam M hg hM, isen_rt_pres gam M hg hM, isen_rt_dens gam M hg hM,
   isen_rt_sonic gam hg, shock_rt_mach gam Ms hg hMs, shock_rt_down gam Ms hg hMs,
   shock_rt_pres gam Ms hg hMs, shock_rt_dens gam Ms hg hMs⟩

/-- Witness for the amended C1 at `gamma = 1.4`, `M = 2` (isentropic)
and `M = 3` (shock). -/
theorem flow_round_trips_witness :
    (1:ℝ) < 1.4 ∧ (0:ℝ) ≤ 2 ∧ (1:ℝ) ≤ 3 ∧
    (∃ out, flowisentropic [1.4] [2] "mach" = .ok out ∧ out.M = [EF.fin 2]) ∧
    (∃ t out1 out2, flowisentropic [1.4] [2] "mach" = .ok out1 ∧ out1.T = [EF.fin t] ∧
      flowisentropic [1.4] [t] "temp" = .ok out2 ∧ out2.M = [EF.fin 2]) ∧
    (∃ out1 out2 out3, flowisentropic [1.4] [1] "mach" = .ok out1 ∧
      out1.area = [EF.fin 1] ∧
      flowisentropic [1.4] [1] "sub" = .ok out2 ∧ out2.M = [EF.fin 1] ∧
      flowisentropic [1.4] [1] "sup" = .ok out3 ∧ out3.M = [EF.fin 1]) ∧
    (∃ m2 out1 out2, flownormalshock [1.4] [3] "mach" = .ok out1 ∧
      out1.M2 = [EF.fin m2] ∧
      flownormalshock [1.4] [m2] "down" = .ok out2 ∧ out2.M = [EF.fin 3]) := by
  have h := flow_round_trips 1.4 2 3 (by norm_num) (by norm_num) (by norm_num)
  exact ⟨by norm_num, by norm_num, by norm_num, h.1, h.2.1, h.2.2.2.2.1, h.2.2.2.2.2.2.1⟩

theorem newtonStep_div_bounds (F M : ℝ) (hF1 : 57870 ≤ F) (hF2 : F ≤ 57871)
    (hMhi : M ≤ -50) :
    4 / 5 * M ≤ newtonStep 1.4 F M ∧ newtonStep 1.4 F M ≤ 3 / 4 * M := by
  have hMneg : M < 0 := by linarith
  have hM : M ≠ 0 := hMneg.ne
  have hx : (50:ℝ) ≤ -M := by linarith
  have hM2 : (2500:ℝ) ≤ M ^ 2 := by nlinarith
  have hM21 : M ^ 2 ≠ 1 := by nlinarith
  have hF0 : (0:ℝ) < F := by linarith
  have hden : (0:ℝ) < 5 * (5 + M ^ 2) ^ 2 * (M ^ 2 - 1) := by
    have h1 : (0:ℝ) < (5 + M ^ 2) ^ 2 := by positivity
    have h2 : (0:ℝ) < M ^ 2 - 1 := by nlinarith
    nlinarith
  rw [newtonStep_gamma14 F M hM hM21]
  constructor
  · -- lower bound: equivalent to M*p <= (M/5)*D since D > 0 and then divide
    have hfac : (0:ℝ) < 6 * (5 + M ^ 2) ^ 2 - 216 * M * F := by
      have h1 : (0:ℝ) < 6 * (5 + M ^ 2) ^ 2 := by positivity
      have h2 : (0:ℝ) < -M * F := mul_pos (by linarith) hF0
      nlinarith
    have hexp : M * ((5 + M ^ 2) ^ 3 - 216 * M * F) -
        M / 5 * (5 * (5 + M ^ 2) ^ 2 * (M ^ 2 - 1)) =
        M * (6 * (5 + M ^ 2) ^ 2 - 216 * M * F) := by ring
    have hkey : M * ((5 + M ^ 2) ^ 3 - 216 * M * F) ≤
        M / 5 * (5 * (5 + M ^ 2) ^ 2 * (M ^ 2 - 1)) := by
      have := mul_nonpos_of_nonpos_of_nonneg hMneg.le hfac.le
      linarith [hexp, this]
    have hdiv : M * ((5 + M ^ 2) ^ 3 - 216 * M * F) /
        (5 * (5 + M ^ 2) ^ 2 * (M ^ 2 - 1)) ≤ M / 5 :=
      (div_le_iff₀ hden).mpr hkey
    linarith [hdiv]
  · -- upper bound: equivalent to (M/4)*D <= M*p
    have h99 : (99 / 100 : ℝ) * M ^ 2 ≤ M ^ 2 - 25 := by nlinarith
    have hq : M ^ 4 ≤ (5 + M ^ 2) ^ 2 := by nlinarith [sq_nonneg M]
    have hx4 : (6250000:ℝ) ≤ M ^ 4 := by nlinarith
    have hx5 : (312500000:ℝ) ≤ M ^ 4 * (-M) := by nlinarith [mul_le_mul hx4 hx (by norm_num) (by positivity)]
    have e1 : M ^ 4 * (M ^ 2 - 25) ≤ (5 + M ^ 2) ^ 2 * (M ^ 2 - 25) :=
      mul_le_mul_of_nonneg_right hq (by nlinarith)
    have e2 : M ^ 4 * (99 / 100 * M ^ 2) ≤ M ^ 4 * (M ^ 2 - 25) :=
      mul_le_mul_of_nonneg_left h99 (by positivity)
    have e5 : (312500000:ℝ) * (-M) ≤ M ^ 4 * (-M) * (-M) :=
      mul_le_mul_of_nonneg_right hx5 (by linarith)
    have e4 : 864 * (-M) * F ≤ 864 * (-M) * 57871 :=
      mul_le_mul_of_nonneg_left hF2 (by nlinarith)
    have hDp : (0:ℝ) ≤ (5 + M ^ 2) ^ 2 * (M ^ 2 - 25) + 864 * M * F := by
      nlinarith [e1, e2, e5, e4]
    have hexp : M / 4 * (5 * (5 + M ^ 2) ^ 2 * (M ^ 2 - 1)) -
        M * ((5 + M ^ 2) ^ 3 - 216 * M * F) =
        M / 4 * ((5 + M ^ 2) ^ 2 * (M ^ 2 - 25) + 864 * M * F) := by ring
    have hkey : M / 4 * (5 * (5 + M ^ 2) ^ 2 * (M ^ 2 - 1)) ≤
        M * ((5 + M ^ 2) ^ 3 - 216 * M * F) := by
      have hh := mul_nonpos_of_nonpos_of_nonneg (by linarith : M / 4 ≤ 0) hDp
      linarith [hexp, hh]
    have hdiv : M / 4 ≤ M * ((5 + M ^ 2) ^ 3 - 216 * M * F) /
        (5 * (5 + M ^ 2) ^ 2 * (M ^ 2 - 1)) :=
      (le_div_iff₀ hden).mpr hkey
    linarith [hdiv]

theorem newtonIter_succ (gam fl : ℝ) (n : ℕ) (M : ℝ) :
    newtonIter gam fl (n + 1) M = newtonIter gam fl n (newtonStep gam fl M) := rfl

theorem newtonIter_divergence_step (F : ℝ) (hF1 : 57870 ≤ F) (hF2 : F ≤ 57871)
    (n : ℕ) (M lo hi lo2 hi2 : ℝ) (hlo : lo ≤ M) (hhi : M ≤ hi) (h50 : hi ≤ -50)
    (hlo2 : lo2 ≤ 4 / 5 * lo) (hhi2 : 3 / 4 * hi ≤ hi2) :
    ∃ N, newtonIter 1.4 F (n + 1) M = newtonIter 1.4 F n N ∧ lo2 ≤ N ∧ N ≤ hi2 := by
  refine ⟨newtonStep 1.4 F M, newtonIter_succ 1.4 F n M, ?_, ?_⟩
  · have h := (newtonStep_div_bounds F M hF1 hF2 (le_trans hhi h50)).1
    linarith
  · have h := (newtonStep_div_bounds F M hF1 hF2 (le_trans hhi h50)).2
    linarith

theorem newtonIter_divergence (F : ℝ) (hF1 : 57870 ≤ F) (hF2 : F ≤ 57871) :
    newtonIter 1.4 F 10 0.2 ≤ -306 := by
  have hM1 : -4101 ≤ newtonStep 1.4 F 0.2 ∧ newtonStep 1.4 F 0.2 ≤ -4100 := by
    rw [newtonStep_gamma14 F 0.2 (by norm_num) (by norm_num)]
    rw [show ((5:ℝ) + 0.2 ^ 2) ^ 3 = 128.024064 by norm_num,
      show (5:ℝ) * (5 + 0.2 ^ 2) ^ 2 * (0.2 ^ 2 - 1) = -121.92768 by norm_num,
      div_neg]
    have h1 : (-499980:ℝ) ≤ 0.2 * (128.024064 - 216 * 0.2 * F) := by linarith
    have h2 : 0.2 * (128.024064 - 216 * 0.2 * F) ≤ -499971 := by linarith
    have h3 : (-499980:ℝ) / 121.92768 ≤ 0.2 * (128.024064 - 216 * 0.2 * F) / 121.92768 := by
      gcongr
    have h4 : 0.2 * (128.024064 - 216 * 0.2 * F) / 121.92768 ≤ (-499971:ℝ) / 121.92768 := by
      gcongr
    have h5 : (-4101:ℝ) ≤ (-499980:ℝ) / 121.92768 := by norm_num
    have h6 : ((-499971:ℝ)) / 121.92768 ≤ -4100.2 := by norm_num
    constructor <;> linarith
  rw [newtonIter_succ 1.4 F 9 0.2]
  obtain ⟨N2, e2, b2a, b2b⟩ := newtonIter_divergence_step F hF1 hF2 8
    (newtonStep 1.4 F 0.2) (-4101) (-4100) (-3281) (-3075) hM1.1 hM1.2
    (by norm_num) (by norm_num) (by norm_num)
  rw [e2]
  obtain ⟨N3, e3, b3a, b3b⟩ := newtonIter_divergence_step F hF1 hF2 7
    N2 (-3281) (-3075) (-2625) (-2306) b2a b2b (by norm_num) (by norm_num) (by norm_num)
  rw [e3]
  obtain ⟨N4, e4, b4a, b4b⟩ := newtonIter_divergence_step F hF1 hF2 6
    N3 (-2625) (-2306) (-2100) (-1729) b3a b3b (by norm_num) (by norm_num) (by norm_num)
  rw [e4]
  obtain ⟨N5, e5, b5a, b5b⟩ := newtonIter_divergence_step F hF1 hF2 5
    N4 (-2100) (-1729) (-1680) (-1296) b4a b4b (by norm_num) (by norm_num) (by norm_num)
  rw [e5]
  obtain ⟨N6, e6, b6a, b6b⟩ := newtonIter_divergence_step F hF1 hF2 4
    N5 (-1680) (-1296) (-1344) (-972) b5a b5b (by norm_num) (by norm_num) (by norm_num)
  rw [e6]
  obtain ⟨N7, e7, b7a, b7b⟩ := newtonIter_divergence_step F hF1 hF2 3
    N6 (-1344) (-972) (-1076) (-729) b6a b6b (by norm_num) (by norm_num) (by norm_num)
  rw [e7]
  obtain ⟨N8, e8, b8a, b8b⟩ := newtonIter_divergence_step F hF1 hF2 2
    N7 (-1076) (-729) (-861) (-546) b7a b7b (by norm_num) (by norm_num) (by norm_num)
  rw [e8]
  obtain ⟨N9, e9, b9a, b9b⟩ := newtonIter_divergence_step F hF1 hF2 1
    N8 (-861) (-546) (-689) (-409) b8a b8b (by norm_num) (by norm_num) (by norm_num)
  rw [e9]
  obtain ⟨N10, e10, b10a, b10b⟩ := newtonIter_divergence_step F hF1 hF2 0
    N9 (-689) (-409) (-552) (-306) b9a b9b (by norm_num) (by norm_num) (by norm_num)
  rw [e10]
  exact b10b

theorem rpow_acoef : ((1.4 + 1 : ℝ) / 2) ^ (-((1.4 + 1 : ℝ) / 2 / (1.4 - 1))) = 125 / 216 := by
  rw [show (-((1.4 + 1 : ℝ) / 2 / (1.4 - 1))) = ((-3 : ℤ) : ℝ) by norm_num,
    Real.rpow_intCast]
  norm_num

theorem rpow_cube (x : ℝ) : x ^ ((1.4 + 1 : ℝ) / 2 / (1.4 - 1)) = x ^ (3 : ℕ) := by
  rw [show ((1.4 + 1 : ℝ) / 2 / (1.4 - 1)) = ((3 : ℕ) : ℝ) by norm_num, Real.rpow_natCast]

/-- C1 counterexample: for the Mach number `M = 1e-5` (inside the `sub`
mode's domain `M <= 1`), the forward area ratio is about `57870.4`, and
the `sub`-mode inverse applied to it returns a Mach number below `-300`:
10 Newton-Raphson iterations from the guess `0.2` diverge to a large
negative value instead of recovering `1e-5` within any reasonable
tolerance. -/
theorem isen_sub_divergence_cx :
    ∃ ar m out1 out2,
      flowisentropic [1.4] [1 / 100000] "mach" = .ok out1 ∧ out1.area = [EF.fin ar] ∧
      flowisentropic [1.4] [ar] "sub" = .ok out2 ∧ out2.M = [EF.fin m] ∧
      m < -300 ∧ 1 < |m - 1 / 100000| := by
  set Fc : ℝ := 125 / 216 * (1 + 1 / 50000000000) ^ 3 * 100000 with hFc
  have hF1 : (57870:ℝ) ≤ Fc := by rw [hFc]; norm_num
  have hF2 : Fc ≤ 57871 := by rw [hFc]; norm_num
  have hdiv := newtonIter_divergence Fc hF1 hF2
  refine ⟨Fc, newtonIter 1.4 Fc 10 0.2, _, _,
    isen_mach_eval 1.4 (1 / 100000) (by norm_num) (by norm_num), ?_,
    isen_sub_eval 1.4 Fc (by norm_num) (by linarith), ?_, ?_, ?_⟩
  · rw [isenOut_singleton, isenFwd_fin 1.4 (1 / 100000) (by norm_num)]
    have hareaval : ((1.4 + 1 : ℝ) / 2) ^ (-((1.4 + 1 : ℝ) / 2 / (1.4 - 1))) *
        (1 + (1.4 - 1) / 2 * (1 / 100000 * (1 / 100000))) ^
          ((1.4 + 1 : ℝ) / 2 / (1.4 - 1)) / (1 / 100000) = Fc := by
      rw [rpow_acoef, rpow_cube, hFc]
      norm_num
    rw [if_neg (by norm_num : ¬ ((1:ℝ) / 100000 = 0)), hareaval]
  · rw [isenOut_singleton]
    rw [if_neg (by linarith : ¬ (Fc = 1))]
    rw [show AETBiternum = 10 from rfl]
  · linarith
  · rw [abs_of_neg (by linarith : newtonIter 1.4 Fc 10 0.2 - 1 / 100000 < 0)]
    linarith
